import Mathlib

/-!
Verification of the drop-classification and aggregation engine of
`src/pktdrop.c` (the `pktdrop` tool).  The C code is shallowly embedded:
pure computations become Lean functions, the mutable stores become explicit
state passed through the operations, machine integers become `Nat` with
explicit `% 2^w` where overflow matters, and fallible paths return
`Option`/`Except`.  Line references are to `src/src/pktdrop.c`.
-/

/-! ## Constants

Protocol numbers and enum values.  `HIST_*` mirror the anonymous enums at
pktdrop.c:46-72, `PKT_TYPE_MAX` is pktdrop.c:119, `MAX_FLOW_ENTRIES` is
pktdrop.c:81.  The `ETH_P_*`/`IPPROTO_*`/`ARPOP_*`/`PACKET_*` values are the
standard kernel-header constants the file includes.
-/

def HIST_BY_NONE : Nat := 0
def HIST_BY_NETNS : Nat := 1
def HIST_BY_DMAC : Nat := 2
def HIST_BY_SMAC : Nat := 3
def HIST_BY_DIP : Nat := 4
def HIST_BY_SIP : Nat := 5
def HIST_BY_FLOW : Nat := 6

def PKT_TYPE_MAX : Nat := 7

def MAX_FLOW_ENTRIES : Nat := 25

def ETH_P_IP : Nat := 0x0800
def ETH_P_ARP : Nat := 0x0806
def ETH_P_IPV6 : Nat := 0x86DD
def ETH_P_LLDP : Nat := 0x88CC

def IPPROTO_TCP : Nat := 6
def IPPROTO_UDP : Nat := 17
def IPPROTO_VRRP : Nat := 112

def ARPOP_REQUEST : Nat := 1
def ARPOP_REPLY : Nat := 2

def EEXIST : Int := 17

/-- The fixed 8-entry packet-type label table `drop_by_type_str`
(pktdrop.c:121-130), listed in index order `PACKET_HOST = 0` ..
`PACKET_KERNEL = 7`. -/
def drop_by_type_str : List String :=
  ["this-host", "broadcast", "multicast", "other-host",
   "outgoing", "loopback", "to-user", "to-kernel"]

/-! ## Protocol bucket counters

The C code keeps `unsigned int buckets[HIST_MAX]` indexed by the `HIST_*`
enum (pktdrop.c:101).  The fixed-size array is embedded as a record with one
field per enum index. -/

structure Buckets where
  lldp : Nat
  arp : Nat
  arp_req : Nat
  arp_reply : Nat
  arp_other : Nat
  ipv4 : Nat
  ipv6 : Nat
  tcp : Nat
  tcp_syn : Nat
  tcp_rst : Nat
  tcp_fin : Nat
  udp : Nat
  vrrp : Nat
  other : Nat
deriving DecidableEq, Repr

def emptyBuckets : Buckets := ⟨0, 0, 0, 0, 0, 0, 0, 0, 0, 0, 0, 0, 0, 0⟩

/-- Modelled from the spec: the TCP part of `struct flow` (flow.h is not
under src/) — the TCP header flags the classifier reads. -/
structure FlowTcp where
  fin : Bool
  syn : Bool
  rst : Bool
deriving DecidableEq, Repr

/-- Modelled from the spec: the transport part of `struct flow` (flow.h is
not under src/) — IP protocol number plus TCP flags. -/
structure FlowTransport where
  proto : Nat
  tcp : FlowTcp
deriving DecidableEq, Repr

/-- Modelled from the spec: the IPv4 part of `struct flow` (flow.h is not
under src/) — source/destination address plus transport. -/
structure FlowIp4 where
  saddr : Nat
  daddr : Nat
  trans : FlowTransport
deriving DecidableEq, Repr

/-- Modelled from the spec: the IPv6 part of `struct flow` (flow.h is not
under src/). -/
structure FlowIp6 where
  trans : FlowTransport
deriving DecidableEq, Repr

/-- Modelled from the spec: the ARP part of `struct flow` (flow.h is not
under src/) — the ARP operation code. -/
structure FlowArp where
  op : Nat
deriving DecidableEq, Repr

/-- Modelled from the spec: `struct flow` (flow.h is not under src/) — the
canonical FlowKey: link protocol, MACs (6 bytes each), and the per-protocol
payloads read by `do_histogram` and the classifiers.  Two FlowKeys are equal
iff structurally (byte-for-byte) identical, matching the `memcmp` test at
pktdrop.c:601. -/
structure FlowKey where
  proto : Nat
  dmac : List Nat
  smac : List Nat
  ip4 : FlowIp4
  ip6 : FlowIp6
  arp : FlowArp
  has_vlan : Bool
deriving DecidableEq, Repr

/-- `process_tcp` (pktdrop.c:539-547): strict precedence FIN, then RST,
then SYN; at most one of the three sub-buckets is incremented. -/
def process_tcp (b : Buckets) (flt : FlowTcp) : Buckets :=
  if flt.fin then { b with tcp_fin := b.tcp_fin + 1 }
  else if flt.rst then { b with tcp_rst := b.tcp_rst + 1 }
  else if flt.syn then { b with tcp_syn := b.tcp_syn + 1 }
  else b

/-- `process_transport` (pktdrop.c:549-564). -/
def process_transport (b : Buckets) (flt : FlowTransport) : Buckets :=
  if flt.proto = IPPROTO_TCP then process_tcp { b with tcp := b.tcp + 1 } flt.tcp
  else if flt.proto = IPPROTO_UDP then { b with udp := b.udp + 1 }
  else if flt.proto = IPPROTO_VRRP then { b with vrrp := b.vrrp + 1 }
  else b

/-- `process_ipv6` (pktdrop.c:566-570). -/
def process_ipv6 (b : Buckets) (fl6 : FlowIp6) : Buckets :=
  process_transport { b with ipv6 := b.ipv6 + 1 } fl6.trans

/-- `process_ipv4` (pktdrop.c:572-576). -/
def process_ipv4 (b : Buckets) (fl4 : FlowIp4) : Buckets :=
  process_transport { b with ipv4 := b.ipv4 + 1 } fl4.trans

/-- `process_arp` (pktdrop.c:578-593). -/
def process_arp (b : Buckets) (fla : FlowArp) : Buckets :=
  let b := { b with arp := b.arp + 1 }
  if fla.op = ARPOP_REQUEST then { b with arp_req := b.arp_req + 1 }
  else if fla.op = ARPOP_REPLY then { b with arp_reply := b.arp_reply + 1 }
  else { b with arp_other := b.arp_other + 1 }

/-- The `switch (fl->proto)` classification at the tail of `do_histogram`
(pktdrop.c:680-696). -/
def classify_buckets (b : Buckets) (fl : FlowKey) : Buckets :=
  if fl.proto = ETH_P_ARP then process_arp b fl.arp
  else if fl.proto = ETH_P_IP then process_ipv4 b fl.ip4
  else if fl.proto = ETH_P_IPV6 then process_ipv6 b fl.ip6
  else if fl.proto = ETH_P_LLDP then { b with lldp := b.lldp + 1 }
  else { b with other := b.other + 1 }

/-! ## Flow deduplication bucket

`struct flow_entry` (pktdrop.c:74-79) and `struct flow_buckets`
(pktdrop.c:82-88).  `calloc` zero-initialises new records, so a fresh
flow entry starts with `hits = 0` and `aging = 0`. -/

structure FlowEntry where
  hits : Nat
  aging : Nat
  flow : FlowKey
deriving DecidableEq, Repr

structure FlowBuckets where
  flows : List FlowEntry
  flow_count : Nat
  overflow : Bool
  failures : Bool
deriving DecidableEq, Repr

def emptyFlowBuckets : FlowBuckets := ⟨[], 0, false, false⟩

/-- Increment the hit counter of the (first) entry whose flow equals `fl`,
in place — the `fl_entry->hits++` on a found entry at pktdrop.c:620. -/
def bumpFlowHits (fl : FlowKey) : List FlowEntry → List FlowEntry
  | [] => []
  | e :: rest =>
    if e.flow = fl then { e with hits := e.hits + 1 } :: rest
    else e :: bumpFlowHits fl rest

/-- `process_flow` (pktdrop.c:595-621).  The linear scan uses `memcmp`
equality; `list_add` pushes a new entry at the head of the list.  `allocOk`
models the outcome of `calloc`: when it fails the code sets `failures` and
discards the sample.  Note the source never increments `flb->flow_count`
anywhere in the file, so the `flow_count > MAX_FLOW_ENTRIES` guard
(pktdrop.c:608) compares against a counter that stays at its initial 0. -/
def process_flow (allocOk : Bool) (flb : FlowBuckets) (fl : FlowKey) : FlowBuckets :=
  if flb.flows.any (fun e => e.flow = fl) then
    { flb with flows := bumpFlowHits fl flb.flows }
  else if flb.flow_count > MAX_FLOW_ENTRIES then
    { flb with overflow := true }
  else if allocOk then
    { flb with flows := { hits := 1, aging := 0, flow := fl } :: flb.flows }
  else
    { flb with failures := true }

/-- Per-flow-entry aging inside `show_flow_buckets` (pktdrop.c:400-407):
a hit in this cycle resets the credit to 3, otherwise the `__u8` credit is
decremented (wrapping at 0) and the entry is freed when the decrement hits
exactly 0; the per-cycle hit count is zeroed. -/
def ageFlowEntry (e : FlowEntry) : Option FlowEntry :=
  if e.hits ≠ 0 then some { e with aging := 3, hits := 0 }
  else
    let a := (e.aging + 255) % 256
    if a = 0 then none else some { e with aging := a, hits := 0 }

/-- The effect of one `show_flow_buckets` pass on a single bucket's state
(pktdrop.c:394-412): every flow entry is aged, and — note — the `overflow`
and `failures` flags are only printed (pktdrop.c:409-412), never written. -/
def sweep_flow_bucket (flb : FlowBuckets) : FlowBuckets :=
  { flb with flows := flb.flows.filterMap ageFlowEntry }

/-- A concrete distinct FlowKey family used to exercise the dedup bucket:
IPv4 flows differing only in destination address. -/
def mkFlow (n : Nat) : FlowKey :=
  { proto := ETH_P_IP
    dmac := [0, 1, 2, 3, 4, 5]
    smac := [6, 7, 8, 9, 10, 11]
    ip4 := { saddr := 0x0a000001, daddr := n,
             trans := { proto := IPPROTO_TCP, tcp := ⟨false, false, false⟩ } }
    ip6 := { trans := { proto := 0, tcp := ⟨false, false, false⟩ } }
    arp := { op := 0 }
    has_vlan := false }

/-- Feeding `n` distinct FlowKeys into a bucket through `process_flow`,
allocation succeeding each time. -/
def insertDistinctFlows (n : Nat) (flb : FlowBuckets) : FlowBuckets :=
  (List.range n).foldl (fun b i => process_flow true b (mkFlow i)) flb

/-! ## The two keyed aggregation stores

`struct drop_loc` (pktdrop.c:106-113) and `struct drop_hist`
(pktdrop.c:90-104).  Both live in kernel-style red-black trees
(`all_drop_loc`, `all_drop_hists`); the rb-tree node linkage and
rebalancing are external library code (`rb_link_node`, `rb_insert_color`,
`rb_erase`, `rb_first`, `rb_next`), which preserve the set of entries and
the ascending-by-key traversal order.  The store contents are therefore
embedded as their in-order view: a list of entries sorted by `addr`, with
lookup/insert/update mirroring the source's walks.  (The key-comparison
walk itself is verified separately on an explicit tree below, for the
uniqueness claim about `insert_droph`/`insert_dropl`.)

`calloc` zero-initialises both entry kinds: a fresh entry has
`total_drops = 0`, `aging = 0`, `dead = false`. -/

structure DropLoc where
  addr : Nat
  name : String
  total_drops : Nat
  aging : Nat
  dead : Bool
deriving DecidableEq, Repr

/-- The mutually exclusive payload of a `drop_hist` entry (the union at
pktdrop.c:100-103): per-protocol bucket counters, or a flow bucket. -/
inductive HistPayload where
  | counters (b : Buckets)
  | flowb (fb : FlowBuckets)
deriving DecidableEq, Repr

structure DropHist where
  addr : Nat
  name : String
  total_drops : Nat
  aging : Nat
  dead : Bool
  payload : HistPayload
deriving DecidableEq, Repr

/-- Non-creating lookup in the histogram store: the descent of
`find_droph(addr, false)` (pktdrop.c:233-253), on the in-order contents. -/
def lookup_droph (a : Nat) : List DropHist → Option DropHist
  | [] => none
  | e :: rest => if e.addr = a then some e else lookup_droph a rest

def lookup_dropl (a : Nat) : List DropLoc → Option DropLoc
  | [] => none
  | e :: rest => if e.addr = a then some e else lookup_dropl a rest

/-- Update the entry with address `a` in place (the caller of a successful
lookup mutates the found node). -/
def updAtHist (a : Nat) (f : DropHist → DropHist) (s : List DropHist) : List DropHist :=
  s.map (fun e => if e.addr = a then f e else e)

def updAtLoc (a : Nat) (f : DropLoc → DropLoc) (s : List DropLoc) : List DropLoc :=
  s.map (fun e => if e.addr = a then f e else e)

/-- Insert a new entry at its ordered position — the effect on the in-order
contents of `rb_link_node` + `rb_insert_color` at a leaf found by the
descending walk. -/
def insertSortedHist (e : DropHist) : List DropHist → List DropHist
  | [] => [e]
  | x :: xs => if e.addr < x.addr then e :: x :: xs else x :: insertSortedHist e xs

def insertSortedLoc (e : DropLoc) : List DropLoc → List DropLoc
  | [] => [e]
  | x :: xs => if e.addr < x.addr then e :: x :: xs else x :: insertSortedLoc e xs

/-- `find_dropl(addr, name)` followed by the caller's `total_drops++`
(pktdrop.c:302-334 and 707-709): fetch-or-create the location entry and
count the drop on it.  Allocation is modelled as succeeding.  A `NULL`
name (no resolved symbol) leaves the `calloc`-zeroed empty name. -/
def record_loc_drop (a : Nat) (name : String) (s : List DropLoc) : List DropLoc :=
  if (lookup_dropl a s).isSome then
    updAtLoc a (fun e => { e with total_drops := e.total_drops + 1 }) s
  else
    insertSortedLoc { addr := a, name := name, total_drops := 1, aging := 0, dead := false } s

/-- `new_droph` (pktdrop.c:152-187): a `calloc`-zeroed entry; in flow mode
the payload is the empty flow-bucket list, otherwise the zeroed counter
array.  (The display name resolution is irrelevant to the claims and
modelled as the zeroed name.) -/
def new_droph (mode : Nat) (a : Nat) : DropHist :=
  { addr := a, name := "", total_drops := 0, aging := 0, dead := false,
    payload := if mode = HIST_BY_FLOW then .flowb emptyFlowBuckets
               else .counters emptyBuckets }

/-- The per-entry mutation `do_histogram` applies to the found-or-created
group entry (pktdrop.c:673-696): count the drop, then either dedup the flow
(flow mode, returning immediately) or classify into the protocol buckets. -/
def bump_droph (mode : Nat) (fl : FlowKey) (e : DropHist) : DropHist :=
  let e := { e with total_drops := e.total_drops + 1 }
  if mode = HIST_BY_FLOW then
    match e.payload with
    | .flowb fb => { e with payload := .flowb (process_flow true fb fl) }
    | .counters b => { e with payload := .counters b }
  else
    match e.payload with
    | .counters b => { e with payload := .counters (classify_buckets b fl) }
    | .flowb fb => { e with payload := .flowb fb }

/-- The little-endian packing of the 6 reversed MAC bytes into the group
address (`p[i] = fl->dmac[5-i]`, pktdrop.c:646-651). -/
def macToAddr (m : List Nat) : Nat :=
  (List.range 6).foldl (fun acc i => acc + (m.getD (5 - i) 0) % 256 * 256 ^ i) 0

/-- The grouping-key computation at the head of `do_histogram`
(pktdrop.c:640-664): `none` means the switch returned without touching the
store (unknown mode, or a non-IPv4 packet under IPv4-address grouping). -/
def hist_addr (mode : Nat) (fl : FlowKey) (netns : Nat) : Option Nat :=
  if mode = HIST_BY_NETNS then some netns
  else if mode = HIST_BY_FLOW ∨ mode = HIST_BY_DMAC then some (macToAddr fl.dmac)
  else if mode = HIST_BY_SMAC then some (macToAddr fl.smac)
  else if mode = HIST_BY_DIP then
    (if fl.proto ≠ ETH_P_IP then none else some (fl.ip4.daddr % 2 ^ 32))
  else if mode = HIST_BY_SIP then
    (if fl.proto ≠ ETH_P_IP then none else some (fl.ip4.saddr % 2 ^ 32))
  else none

/-- `do_histogram` (pktdrop.c:634-697), on the store contents.  Allocation
of a new group entry is modelled as succeeding (the failure path only logs
and leaves the store unchanged). -/
def do_histogram (mode : Nat) (fl : FlowKey) (netns : Nat) (s : List DropHist) :
    List DropHist :=
  match hist_addr mode fl netns with
  | none => s
  | some a =>
    if (lookup_droph a s).isSome then
      updAtHist a (bump_droph mode fl) s
    else
      insertSortedHist (bump_droph mode fl (new_droph mode a)) s

/-- `process_exit` (pktdrop.c:623-632): a non-creating lookup by the exit
record's namespace identifier; a found entry is marked dead immediately,
its drop total and aging credit untouched. -/
def process_exit (netns : Nat) (s : List DropHist) : List DropHist :=
  if (lookup_droph netns s).isSome then
    updAtHist netns (fun e => { e with dead := true }) s
  else s

/-! ## Aging and the per-cycle sweeps -/

/-- The common per-entry aging tail of the render passes
(pktdrop.c:360-365, 417-422, 463-469): a cycle with at least one drop
resets the credit to 3, otherwise the `__u8` credit is decremented
(wrapping at 0) and the entry is marked dead when the decrement yields
exactly 0; the per-cycle total is then zeroed. -/
def age_dropl (e : DropLoc) : DropLoc :=
  if e.total_drops ≠ 0 then { e with aging := 3, total_drops := 0 }
  else
    let a := (e.aging + 255) % 256
    { e with aging := a, dead := e.dead || decide (a = 0), total_drops := 0 }

def age_droph (e : DropHist) : DropHist :=
  if e.total_drops ≠ 0 then { e with aging := 3, total_drops := 0 }
  else
    let a := (e.aging + 255) % 256
    { e with aging := a, dead := e.dead || decide (a = 0), total_drops := 0 }

/-- `show_loc_entries` (pktdrop.c:346-377): the ordered render/aging
traversal followed, in the same call, by the restart-on-removal pass that
erases every entry marked dead. -/
def show_loc_entries (s : List DropLoc) : List DropLoc :=
  (s.map age_dropl).filter (fun e => !e.dead)

/-- The per-entry effect of `show_hist_buckets` (pktdrop.c:434-470): for an
entry at or above the display threshold the rendered bucket counters are
zeroed (pktdrop.c:456-460); below-threshold entries jump straight to
`do_aging` and keep their bucket counters.  Every entry is then aged. -/
def show_hist_entry (thresh : Nat) (e : DropHist) : DropHist :=
  let e2 :=
    if e.total_drops < thresh then e
    else
      match e.payload with
      | .counters _ => { e with payload := .counters emptyBuckets }
      | .flowb fb => { e with payload := .flowb fb }
  age_droph e2

/-- `show_hist_buckets` (pktdrop.c:426-471): marks dead entries but removes
nothing — removal happens in `cleanup_hist_buckets`. -/
def show_hist_buckets (thresh : Nat) (s : List DropHist) : List DropHist :=
  s.map (show_hist_entry thresh)

/-- The per-entry effect of `show_flow_buckets` (pktdrop.c:385-423): the
entry's flow bucket is swept (`sweep_flow_bucket`), then the entry itself
is aged.  The bucket's `overflow`/`failures` flags are printed but not
written. -/
def show_flow_entry (e : DropHist) : DropHist :=
  let e2 :=
    match e.payload with
    | .flowb fb => { e with payload := .flowb (sweep_flow_bucket fb) }
    | .counters b => { e with payload := .counters b }
  age_droph e2

def show_flow_buckets (s : List DropHist) : List DropHist :=
  s.map show_flow_entry

/-- `cleanup_hist_buckets` (pktdrop.c:473-488): the restart-on-removal pass
erasing every histogram-store entry marked dead. -/
def cleanup_hist_buckets (s : List DropHist) : List DropHist :=
  s.filter (fun e => !e.dead)

/-! ## The classification pipeline -/

/-- The fields of `struct data` (the per-sample record) that
`process_event`/`process_packet` read. -/
structure SampleData where
  location : Nat
  pkt_type : Nat
  netns : Nat
  vlan_tci : Nat
deriving DecidableEq, Repr

/-- A resolved kernel symbol: the fields of `struct ksym_s` the pipeline
reads. -/
structure Ksym where
  name : String
  is_unix : Bool
  is_tcp : Bool
deriving DecidableEq, Repr

/-- The global mutable state of the aggregator: `total_drops`,
`total_drops_unix` (pktdrop.c:116-117), the 8-entry
`total_drops_by_type` array (pktdrop.c:120), the two stores, and a count
of diagnostic lines written to stderr. -/
structure GState where
  total_drops : Nat
  total_drops_unix : Nat
  by_type : List Nat
  locs : List DropLoc
  hists : List DropHist
  stderr_lines : Nat
deriving DecidableEq, Repr

def initState : GState := ⟨0, 0, [0, 0, 0, 0, 0, 0, 0, 0], [], [], 0⟩

def bumpAt (l : List Nat) (i : Nat) : List Nat := l.set i (l.getD i 0 + 1)

/-- `process_packet` (pktdrop.c:699-726).  The external packet parser
(`parse_pkt`) is a collaborator: its outcome enters as `parsed`
(`none` = parse failure).  `sym` is the optional resolved symbol; the code
guards every access (`sym ? sym->name : NULL`, `sym && sym->is_unix`). -/
def process_packet (mode : Nat) (data : SampleData) (sym : Option Ksym)
    (parsed : Option FlowKey) (st : GState) : GState :=
  let st := { st with
    total_drops := st.total_drops + 1,
    by_type := bumpAt st.by_type (data.pkt_type &&& PKT_TYPE_MAX) }
  let st := { st with
    locs := record_loc_drop data.location
      (match sym with | some s => s.name | none => "") st.locs }
  if (match sym with | some s => s.is_unix | none => false) then
    { st with total_drops_unix := st.total_drops_unix + 1 }
  else
    match parsed with
    | none => { st with stderr_lines := st.stderr_lines + 1 }
    | some fl => { st with hists := do_histogram mode fl data.netns st.hists }

inductive EventType where
  | sample
  | exit
deriving DecidableEq, Repr

/-- `process_event` (pktdrop.c:802-825).  The result is `none` exactly when
the C code dereferences a `NULL` symbol pointer: with `skip_unix` (option
`-U`) or `skip_tcp` (option `-T`) enabled, `sym->is_unix` / `sym->is_tcp`
are read without a `NULL` check (pktdrop.c:811-813), although `find_ksym`
can return `NULL` (as the guards inside `process_packet`/`show_packet`
acknowledge).  `sym_is_ovs` stands for the pointer comparison
`sym == ovs_sym`; `do_hist` selects histogram mode versus the per-packet
display (`show_packet` only prints, leaving the aggregation state
unchanged). -/
def process_event (do_hist : Bool) (mode : Nat)
    (skip_ovs_upcalls skip_unix skip_tcp : Bool) (sym_is_ovs : Bool)
    (sym : Option Ksym) (parsed : Option FlowKey) (data : SampleData)
    (etype : EventType) (st : GState) : Option GState :=
  match etype with
  | .exit => some { st with hists := process_exit data.netns st.hists }
  | .sample =>
    let run : Option GState :=
      if do_hist then some (process_packet mode data sym parsed st) else some st
    let chkTcp : Option GState :=
      if skip_tcp then
        match sym with
        | none => none
        | some s => if s.is_tcp then some st else run
      else run
    if skip_ovs_upcalls ∧ sym_is_ovs then some st
    else if skip_unix then
      match sym with
      | none => none
      | some s => if s.is_unix then some st else chkTcp
    else chkTcp

/-! ## The ordered store tree and the insertion walk

The descending key-comparison walks of `insert_droph` (pktdrop.c:208-231),
`insert_dropl` (pktdrop.c:277-300, the identical walk on the location
store) and `find_droph` (pktdrop.c:233-262) are embedded on an explicit
binary search tree.  The red-black recolouring/rotation done by the
external `rb_insert_color` preserves the entry set and the symmetric
order, so it is not modelled.  The tree is generic in the entry payload:
the histogram store instantiates it with `DropHist`, the location store
with `DropLoc`. -/

inductive RBTree (α : Type) where
  | nil : RBTree α
  | node (l : RBTree α) (key : Nat) (val : α) (r : RBTree α) : RBTree α
deriving DecidableEq, Repr

def RBTree.toList {α : Type} : RBTree α → List (Nat × α)
  | .nil => []
  | .node l k v r => toList l ++ (k, v) :: toList r

def RBTree.keys {α : Type} (t : RBTree α) : List Nat := t.toList.map Prod.fst

/-- The lookup walk shared by `find_droph` (pktdrop.c:240-250) and
`find_dropl` (pktdrop.c:309-319): strictly-less goes left, strictly-greater
goes right, otherwise the node is the match. -/
def RBTree.findKey {α : Type} : RBTree α → Nat → Option α
  | .nil, _ => none
  | .node l k2 v r, k =>
    if k < k2 then findKey l k
    else if k2 < k then findKey r k
    else some v

/-- `insert_droph` (pktdrop.c:208-231) / `insert_dropl`
(pktdrop.c:277-300): descend comparing keys; an equal key aborts with
`-EEXIST` before any link is made, so the tree is left unchanged; otherwise
the new node is linked at the leaf the walk reached. -/
def insert_droph {α : Type} : RBTree α → Nat → α → Except Int (RBTree α)
  | .nil, k, v => .ok (.node .nil k v .nil)
  | .node l k2 v2 r, k, v =>
    if k < k2 then
      match insert_droph l k v with
      | .ok l2 => .ok (.node l2 k2 v2 r)
      | .error e => .error e
    else if k2 < k then
      match insert_droph r k v with
      | .ok r2 => .ok (.node l k2 v2 r2)
      | .error e => .error e
    else .error (-EEXIST)

/-- The create path of `find_droph(addr, true)` (pktdrop.c:252-261):
a failed lookup allocates a fresh entry and inserts it; if the insert
fails the fresh entry is freed and the store is unchanged. -/
def find_droph_create {α : Type} (t : RBTree α) (k : Nat) (mk : α) : RBTree α :=
  match t.findKey k with
  | some _ => t
  | none =>
    match insert_droph t k mk with
    | .ok t2 => t2
    | .error _ => t

def RBTree.ofList {α : Type} : List (Nat × α) → RBTree α
  | [] => .nil
  | (k, v) :: rest => .node .nil k v (ofList rest)

/-- Modelled from the spec: `rb_erase` (external kernel rb-tree library,
not under src/) — `remove(key)` of the store contract; it unlinks exactly
the node with the given key and keeps every other entry in order.  Embedded
as the effect on the in-order contents. -/
def rb_erase {α : Type} (t : RBTree α) (k : Nat) : RBTree α :=
  RBTree.ofList (t.toList.filter (fun p => p.1 != k))

/-- The binary-search-tree order invariant of the store. -/
def RBTree.Ordered {α : Type} : RBTree α → Prop
  | .nil => True
  | .node l k _ r =>
    (∀ k2 ∈ l.keys, k2 < k) ∧ (∀ k2 ∈ r.keys, k < k2) ∧ Ordered l ∧ Ordered r

/-- Every store state reachable from the empty store by the operations the
source performs on the aggregation stores: fetch-or-create, raw insertion,
and removal. -/
inductive StoreOps {α : Type} (mk : Nat → α) : RBTree α → Prop where
  | empty : StoreOps mk .nil
  | create {t : RBTree α} (k : Nat) :
      StoreOps mk t → StoreOps mk (find_droph_create t k (mk k))
  | ins {t t2 : RBTree α} (k : Nat) (v : α) :
      StoreOps mk t → insert_droph t k v = .ok t2 → StoreOps mk t2
  | erase {t : RBTree α} (k : Nat) :
      StoreOps mk t → StoreOps mk (rb_erase t k)

/-! ## Reachability and invariants -/

/-- The `overflow`/`failures` flags of a flow-mode group entry. -/
def flow_flags (e : DropHist) : Option (Bool × Bool) :=
  match e.payload with
  | .flowb fb => some (fb.overflow, fb.failures)
  | .counters _ => none

/-- One full reporting cycle on the histogram store in a counter mode:
`show_hist_buckets` followed by `cleanup_hist_buckets`, the order
`show_hist` runs them (pktdrop.c:490-537). -/
def hist_cycle (thresh : Nat) (s : List DropHist) : List DropHist :=
  cleanup_hist_buckets (show_hist_buckets thresh s)

/-- One full reporting cycle on the histogram store in flow mode. -/
def flow_cycle (s : List DropHist) : List DropHist :=
  cleanup_hist_buckets (show_flow_buckets s)

/-- Location-store states reachable from the empty store by recording
drops and running report/sweep cycles. -/
inductive LocReach : List DropLoc → Prop where
  | empty : LocReach []
  | drop {s : List DropLoc} (a : Nat) (n : String) :
      LocReach s → LocReach (record_loc_drop a n s)
  | sweep {s : List DropLoc} : LocReach s → LocReach (show_loc_entries s)

/-- The location-store invariant: entries are never left marked dead, the
aging credit stays in {0,1,2,3}, an entry without cycle drops has a
positive credit, and addresses are unique. -/
def LocInv (s : List DropLoc) : Prop :=
  (∀ e ∈ s, e.dead = false ∧ e.aging ≤ 3 ∧ (e.total_drops ≠ 0 ∨ 1 ≤ e.aging)) ∧
  (s.map DropLoc.addr).Nodup

/-- Histogram-store states reachable from the empty store by
`do_histogram`, `process_exit`, and report/sweep cycles. -/
inductive HistReach (mode thresh : Nat) : List DropHist → Prop where
  | empty : HistReach mode thresh []
  | drop {s : List DropHist} (fl : FlowKey) (netns : Nat) :
      HistReach mode thresh s → HistReach mode thresh (do_histogram mode fl netns s)
  | exitEv {s : List DropHist} (netns : Nat) :
      HistReach mode thresh s → HistReach mode thresh (process_exit netns s)
  | sweepHist {s : List DropHist} :
      HistReach mode thresh s → HistReach mode thresh (hist_cycle thresh s)
  | sweepFlow {s : List DropHist} :
      HistReach mode thresh s → HistReach mode thresh (flow_cycle s)

/-- The histogram-store invariant: aging credit in {0,1,2,3}, positive
credit whenever the cycle total is zero, unique addresses.  (Entries may be
marked dead — `process_exit` does that — but are removed at the next
cycle.) -/
def HistInv (s : List DropHist) : Prop :=
  (∀ e ∈ s, e.aging ≤ 3 ∧ (e.total_drops ≠ 0 ∨ 1 ≤ e.aging)) ∧
  (s.map DropHist.addr).Nodup

/-! ## Concrete demonstration values -/

/-- A flow-mode group entry whose bucket has both sticky flags set. -/
def demoFlowDroph : DropHist :=
  { addr := 1, name := "", total_drops := 5, aging := 3, dead := false,
    payload := .flowb { flows := [], flow_count := 0, overflow := true, failures := true } }

/-- A sample record at a location address that resolves to no symbol. -/
def demoSample : SampleData :=
  { location := 0xffff0001, pkt_type := 0xFF, netns := 0x1000, vlan_tci := 0 }

/-- A non-flow histogram group entry with a nonzero cycle total. -/
def demoHistEntry : DropHist :=
  { addr := 0x2000, name := "ns", total_drops := 7, aging := 3, dead := false,
    payload := .counters emptyBuckets }

/-! # Theorems -/

/-- **C4.** For every classified TCP flow, `process_transport` increments
the TCP bucket and at most one of the FIN/RST/SYN buckets, chosen by strict
precedence FIN over RST over SYN; with both FIN and SYN set only the FIN
bucket is incremented and the SYN bucket is unchanged; all three flags
clear leaves only the TCP bucket incremented. -/
theorem tcp_flag_precedence (b : Buckets) (flt : FlowTransport)
    (ht : flt.proto = IPPROTO_TCP) :
    (process_transport b flt).tcp = b.tcp + 1 ∧
    (flt.tcp.fin = true →
      (process_transport b flt).tcp_fin = b.tcp_fin + 1 ∧
      (process_transport b flt).tcp_rst = b.tcp_rst ∧
      (process_transport b flt).tcp_syn = b.tcp_syn) ∧
    (flt.tcp.fin = false → flt.tcp.rst = true →
      (process_transport b flt).tcp_rst = b.tcp_rst + 1 ∧
      (process_transport b flt).tcp_fin = b.tcp_fin ∧
      (process_transport b flt).tcp_syn = b.tcp_syn) ∧
    (flt.tcp.fin = false → flt.tcp.rst = false → flt.tcp.syn = true →
      (process_transport b flt).tcp_syn = b.tcp_syn + 1 ∧
      (process_transport b flt).tcp_fin = b.tcp_fin ∧
      (process_transport b flt).tcp_rst = b.tcp_rst) ∧
    (flt.tcp.fin = false → flt.tcp.rst = false → flt.tcp.syn = false →
      process_transport b flt = { b with tcp := b.tcp + 1 }) := by
  rcases flt with ⟨p, f, sy, r⟩
  dsimp at ht
  subst ht
  cases f <;> cases sy <;> cases r <;>
    simp [process_transport, process_tcp]

/-- Witness for `tcp_flag_precedence`: a flow with both FIN and SYN set
increments only the FIN sub-bucket. -/
theorem tcp_flag_precedence_witness :
    (process_transport emptyBuckets ⟨IPPROTO_TCP, true, true, false⟩).tcp
        = emptyBuckets.tcp + 1 ∧
    (process_transport emptyBuckets ⟨IPPROTO_TCP, true, true, false⟩).tcp_fin
        = emptyBuckets.tcp_fin + 1 ∧
    (process_transport emptyBuckets ⟨IPPROTO_TCP, true, true, false⟩).tcp_syn
        = emptyBuckets.tcp_syn := by
  have h := tcp_flag_precedence emptyBuckets ⟨IPPROTO_TCP, true, true, false⟩ rfl
  exact ⟨h.1, (h.2.1 rfl).1, (h.2.1 rfl).2.2⟩

/-- **C1.** The 25-entry capacity of a flow deduplication bucket is never
enforced: `flow_count` is checked (pktdrop.c:608) but never incremented
anywhere in the file, so after 26 distinct FlowKeys the bucket holds 26
live entries, `overflow` is still false, and `flow_count` is still 0 —
against the documented 25-entry bound with `overflow = true`. -/
theorem flow_bucket_capacity_unenforced :
    (insertDistinctFlows 26 emptyFlowBuckets).flows.length = 26 ∧
    (insertDistinctFlows 26 emptyFlowBuckets).overflow = false ∧
    (insertDistinctFlows 26 emptyFlowBuckets).flow_count = 0 := by
  decide

/-- **C2, counterexample.** A cycle report over a bucket whose `overflow`
and `failures` flags are set leaves both flags set: `show_flow_buckets`
prints them (pktdrop.c:409-412) but never clears them, so the claim that
the report clears the sticky flags fails on this input. -/
theorem flow_flags_survive_report_cex :
    (show_flow_buckets [demoFlowDroph]).map flow_flags = [some (true, true)] := by
  decide

/-- **C2, amended.** A cycle report leaves every flow bucket's `overflow`
and `failures` flags exactly as they were: once set, the sticky flags
persist across cycles (and their warning lines print on every subsequent
report) instead of being cleared and re-derived per cycle. -/
theorem flow_flags_survive_report (s : List DropHist) :
    (show_flow_buckets s).map flow_flags = s.map flow_flags := by
  have h : ∀ e : DropHist, flow_flags (show_flow_entry e) = flow_flags e := by
    intro e
    rcases e with ⟨a, n, d, g, dd, pl⟩
    by_cases hd : d = 0 <;>
      cases pl <;>
        simp [flow_flags, show_flow_entry, age_droph, sweep_flow_bucket, hd]
  calc (s.map show_flow_entry).map flow_flags
      = s.map (fun e => flow_flags (show_flow_entry e)) := by
        rw [List.map_map]; rfl
    _ = s.map flow_flags := List.map_congr_left (fun e _ => h e)

/-- **C10.** `process_event` (pktdrop.c:802-825) is not total when symbol
resolution fails: with `-U` (skip unix drops) or `-T` (skip tcp drops)
enabled, a sample whose location resolves to no symbol makes the code read
`sym->is_unix` / `sym->is_tcp` through a `NULL` pointer (pktdrop.c:811-813)
— modelled as the `none` result — even though the rest of the pipeline
(`process_packet`, `show_packet`) explicitly guards `sym` against `NULL`.
With both options off the same sample is processed fine. -/
theorem event_handler_null_sym_deref :
    process_event true HIST_BY_NETNS false true false false none none
      demoSample EventType.sample initState = none ∧
    process_event true HIST_BY_NETNS false false true false none none
      demoSample EventType.sample initState = none ∧
    (process_event true HIST_BY_NETNS false false false false none none
      demoSample EventType.sample initState).isSome = true := by
  refine ⟨rfl, rfl, ?_⟩
  rfl

/-! ## Helper lemmas about the store contents -/

theorem age_droph_addr (e : DropHist) : (age_droph e).addr = e.addr := by
  by_cases h : e.total_drops = 0 <;> simp [age_droph, h]

theorem age_dropl_addr (e : DropLoc) : (age_dropl e).addr = e.addr := by
  by_cases h : e.total_drops = 0 <;> simp [age_dropl, h]

theorem age_droph_dead (e : DropHist) (h : e.dead = true) :
    (age_droph e).dead = true := by
  by_cases h2 : e.total_drops = 0 <;> simp [age_droph, h2, h]

theorem show_hist_entry_addr (thresh : Nat) (e : DropHist) :
    (show_hist_entry thresh e).addr = e.addr := by
  rcases e with ⟨a, n, d, g, dd, pl⟩
  by_cases h : d < thresh <;> cases pl <;>
    simp [show_hist_entry, age_droph_addr, h]

theorem show_flow_entry_addr (e : DropHist) :
    (show_flow_entry e).addr = e.addr := by
  rcases e with ⟨a, n, d, g, dd, pl⟩
  cases pl <;> simp [show_flow_entry, age_droph_addr]

theorem show_hist_entry_dead (thresh : Nat) (e : DropHist) (h : e.dead = true) :
    (show_hist_entry thresh e).dead = true := by
  simp only [show_hist_entry]
  split
  · exact age_droph_dead e h
  · cases hp : e.payload <;> exact age_droph_dead _ h

theorem show_flow_entry_dead (e : DropHist) (h : e.dead = true) :
    (show_flow_entry e).dead = true := by
  simp only [show_flow_entry]
  cases hp : e.payload <;> exact age_droph_dead _ h

theorem lookup_droph_map (g : DropHist → DropHist) (hg : ∀ e, (g e).addr = e.addr)
    (a : Nat) (s : List DropHist) :
    lookup_droph a (s.map g) = (lookup_droph a s).map g := by
  induction s with
  | nil => rfl
  | cons e s ih =>
    by_cases h : e.addr = a <;> simp [lookup_droph, h, hg, ih]

theorem lookup_dropl_map (g : DropLoc → DropLoc) (hg : ∀ e, (g e).addr = e.addr)
    (a : Nat) (s : List DropLoc) :
    lookup_dropl a (s.map g) = (lookup_dropl a s).map g := by
  induction s with
  | nil => rfl
  | cons e s ih =>
    by_cases h : e.addr = a <;> simp [lookup_dropl, h, hg, ih]

theorem lookup_updAtHist (a : Nat) (f : DropHist → DropHist)
    (hf : ∀ e, (f e).addr = e.addr) (s : List DropHist) :
    lookup_droph a (updAtHist a f s) = (lookup_droph a s).map f := by
  induction s with
  | nil => rfl
  | cons e s ih =>
    by_cases h : e.addr = a <;>
      simp [updAtHist, lookup_droph, h, hf] at ih ⊢ <;> exact ih

theorem lookup_updAtLoc (a : Nat) (f : DropLoc → DropLoc)
    (hf : ∀ e, (f e).addr = e.addr) (s : List DropLoc) :
    lookup_dropl a (updAtLoc a f s) = (lookup_dropl a s).map f := by
  induction s with
  | nil => rfl
  | cons e s ih =>
    by_cases h : e.addr = a <;>
      simp [updAtLoc, lookup_dropl, h, hf] at ih ⊢ <;> exact ih

theorem lookup_droph_not_mem (a : Nat) (s : List DropHist)
    (h : a ∉ s.map DropHist.addr) : lookup_droph a s = none := by
  induction s with
  | nil => rfl
  | cons e s ih =>
    rw [List.map_cons] at h
    simp only [List.mem_cons, not_or] at h
    have h1 : ¬ e.addr = a := fun hh => h.1 hh.symm
    simp [lookup_droph, h1, ih h.2]

theorem lookup_dropl_not_mem (a : Nat) (s : List DropLoc)
    (h : a ∉ s.map DropLoc.addr) : lookup_dropl a s = none := by
  induction s with
  | nil => rfl
  | cons e s ih =>
    rw [List.map_cons] at h
    simp only [List.mem_cons, not_or] at h
    have h1 : ¬ e.addr = a := fun hh => h.1 hh.symm
    simp [lookup_dropl, h1, ih h.2]

theorem lookup_droph_filter (p : DropHist → Bool) (a : Nat) (s : List DropHist)
    (hnd : (s.map DropHist.addr).Nodup) :
    lookup_droph a (s.filter p) =
      (lookup_droph a s).bind (fun e => if p e then some e else none) := by
  induction s with
  | nil => rfl
  | cons e s ih =>
    rw [List.map_cons, List.nodup_cons] at hnd
    by_cases h : e.addr = a
    · by_cases hp : p e
      · simp [List.filter_cons, hp, lookup_droph, h]
      · have hna : a ∉ (s.filter p).map DropHist.addr := by
          intro hmem
          exact hnd.1 (h ▸ ((List.filter_sublist s).map DropHist.addr).subset hmem)
        simp [List.filter_cons, hp, lookup_droph, h,
              lookup_droph_not_mem a _ hna]
    · by_cases hp : p e <;>
        simp [List.filter_cons, hp, lookup_droph, h, ih hnd.2]

theorem lookup_dropl_filter (p : DropLoc → Bool) (a : Nat) (s : List DropLoc)
    (hnd : (s.map DropLoc.addr).Nodup) :
    lookup_dropl a (s.filter p) =
      (lookup_dropl a s).bind (fun e => if p e then some e else none) := by
  induction s with
  | nil => rfl
  | cons e s ih =>
    rw [List.map_cons, List.nodup_cons] at hnd
    by_cases h : e.addr = a
    · by_cases hp : p e
      · simp [List.filter_cons, hp, lookup_dropl, h]
      · have hna : a ∉ (s.filter p).map DropLoc.addr := by
          intro hmem
          exact hnd.1 (h ▸ ((List.filter_sublist s).map DropLoc.addr).subset hmem)
        simp [List.filter_cons, hp, lookup_dropl, h,
              lookup_dropl_not_mem a _ hna]
    · by_cases hp : p e <;>
        simp [List.filter_cons, hp, lookup_dropl, h, ih hnd.2]

theorem lookup_insertSortedHist (a : Nat) (e : DropHist) (he : e.addr = a)
    (s : List DropHist) (h : lookup_droph a s = none) :
    lookup_droph a (insertSortedHist e s) = some e := by
  subst he
  induction s with
  | nil => simp [insertSortedHist, lookup_droph]
  | cons x xs ih =>
    rw [lookup_droph] at h
    by_cases hx : x.addr = e.addr
    · simp [hx] at h
    · rw [if_neg hx] at h
      by_cases hlt : e.addr < x.addr
      · simp [insertSortedHist, hlt, lookup_droph]
      · simp [insertSortedHist, hlt, lookup_droph, hx, ih h]

theorem lookup_insertSortedLoc (a : Nat) (e : DropLoc) (he : e.addr = a)
    (s : List DropLoc) (h : lookup_dropl a s = none) :
    lookup_dropl a (insertSortedLoc e s) = some e := by
  subst he
  induction s with
  | nil => simp [insertSortedLoc, lookup_dropl]
  | cons x xs ih =>
    rw [lookup_dropl] at h
    by_cases hx : x.addr = e.addr
    · simp [hx] at h
    · rw [if_neg hx] at h
      by_cases hlt : e.addr < x.addr
      · simp [insertSortedLoc, hlt, lookup_dropl]
      · simp [insertSortedLoc, hlt, lookup_dropl, hx, ih h]

theorem insertSortedHist_perm (e : DropHist) (s : List DropHist) :
    List.Perm (insertSortedHist e s) (e :: s) := by
  induction s with
  | nil => exact List.Perm.refl _
  | cons x xs ih =>
    by_cases hlt : e.addr < x.addr
    · rw [insertSortedHist, if_pos hlt]
    · rw [insertSortedHist, if_neg hlt]
      exact (ih.cons x).trans (List.Perm.swap e x xs)

theorem insertSortedLoc_perm (e : DropLoc) (s : List DropLoc) :
    List.Perm (insertSortedLoc e s) (e :: s) := by
  induction s with
  | nil => exact List.Perm.refl _
  | cons x xs ih =>
    by_cases hlt : e.addr < x.addr
    · rw [insertSortedLoc, if_pos hlt]
    · rw [insertSortedLoc, if_neg hlt]
      exact (ih.cons x).trans (List.Perm.swap e x xs)

theorem map_addrs_hist (g : DropHist → DropHist) (hg : ∀ e, (g e).addr = e.addr)
    (s : List DropHist) :
    (s.map g).map DropHist.addr = s.map DropHist.addr := by
  rw [List.map_map]
  exact List.map_congr_left (fun e _ => hg e)

theorem map_addrs_loc (g : DropLoc → DropLoc) (hg : ∀ e, (g e).addr = e.addr)
    (s : List DropLoc) :
    (s.map g).map DropLoc.addr = s.map DropLoc.addr := by
  rw [List.map_map]
  exact List.map_congr_left (fun e _ => hg e)

theorem updAtHist_addrs (a : Nat) (f : DropHist → DropHist)
    (hf : ∀ e, (f e).addr = e.addr) (s : List DropHist) :
    (updAtHist a f s).map DropHist.addr = s.map DropHist.addr := by
  rw [updAtHist, List.map_map]
  refine List.map_congr_left (fun e _ => ?_)
  by_cases h : e.addr = a <;> simp [h, hf]

theorem updAtLoc_addrs (a : Nat) (f : DropLoc → DropLoc)
    (hf : ∀ e, (f e).addr = e.addr) (s : List DropLoc) :
    (updAtLoc a f s).map DropLoc.addr = s.map DropLoc.addr := by
  rw [updAtLoc, List.map_map]
  refine List.map_congr_left (fun e _ => ?_)
  by_cases h : e.addr = a <;> simp [h, hf]

/-! ## Field-level facts about `process_packet` -/

theorem process_packet_by_type (mode : Nat) (data : SampleData) (sym : Option Ksym)
    (parsed : Option FlowKey) (st : GState) :
    (process_packet mode data sym parsed st).by_type
      = bumpAt st.by_type (data.pkt_type &&& PKT_TYPE_MAX) := by
  cases sym with
  | none => cases parsed <;> simp [process_packet]
  | some s => cases hs : s.is_unix <;> cases parsed <;> simp [process_packet, hs]

theorem process_packet_total (mode : Nat) (data : SampleData) (sym : Option Ksym)
    (parsed : Option FlowKey) (st : GState) :
    (process_packet mode data sym parsed st).total_drops = st.total_drops + 1 := by
  cases sym with
  | none => cases parsed <;> simp [process_packet]
  | some s => cases hs : s.is_unix <;> cases parsed <;> simp [process_packet, hs]

theorem process_packet_locs (mode : Nat) (data : SampleData) (sym : Option Ksym)
    (parsed : Option FlowKey) (st : GState) :
    (process_packet mode data sym parsed st).locs
      = record_loc_drop data.location
          (match sym with | some s => s.name | none => "") st.locs := by
  cases sym with
  | none => cases parsed <;> simp [process_packet]
  | some s => cases hs : s.is_unix <;> cases parsed <;> simp [process_packet, hs]

theorem lookup_record_loc (a : Nat) (n : String) (s : List DropLoc) :
    lookup_dropl a (record_loc_drop a n s) =
      some (match lookup_dropl a s with
            | some e => { e with total_drops := e.total_drops + 1 }
            | none => ⟨a, n, 1, 0, false⟩) := by
  cases h : lookup_dropl a s with
  | some e =>
    simp only [record_loc_drop, h, Option.isSome_some, if_pos]
    rw [lookup_updAtLoc a
          (fun e2 => { e2 with total_drops := e2.total_drops + 1 })
          (fun e2 => rfl) s, h]
    rfl
  | none =>
    simp only [record_loc_drop, h, Option.isSome_none, Bool.false_eq_true, if_neg,
               Bool.not_eq_true]
    exact lookup_insertSortedLoc a _ rfl s h

/-- **C9.** Every drop sample is counted in the packet-type slot indexed by
the low three bits of its packet-type tag (`pkt_type & PKT_TYPE_MAX`,
pktdrop.c:705): the index never exceeds 7, the slot's counter is
incremented by exactly one, a tag of 0xFF lands in slot
`0xFF & 0x7 = 7`, and slot 7 of the fixed 8-entry table is labelled
"to-kernel". -/
theorem pkt_type_masked_count (mode : Nat) (data : SampleData) (sym : Option Ksym)
    (parsed : Option FlowKey) (st : GState) (hlen : st.by_type.length = 8) :
    (process_packet mode data sym parsed st).by_type
        = bumpAt st.by_type (data.pkt_type &&& PKT_TYPE_MAX) ∧
    data.pkt_type &&& PKT_TYPE_MAX ≤ 7 ∧
    (process_packet mode data sym parsed st).by_type.getD
        (data.pkt_type &&& PKT_TYPE_MAX) 0
      = st.by_type.getD (data.pkt_type &&& PKT_TYPE_MAX) 0 + 1 ∧
    0xFF &&& PKT_TYPE_MAX = 7 ∧
    drop_by_type_str.getD 7 "" = "to-kernel" := by
  have hle : data.pkt_type &&& PKT_TYPE_MAX ≤ 7 := Nat.and_le_right
  have hlt : data.pkt_type &&& PKT_TYPE_MAX < st.by_type.length := by
    rw [hlen]; omega
  refine ⟨process_packet_by_type mode data sym parsed st, hle, ?_, by decide, by decide⟩
  rw [process_packet_by_type mode data sym parsed st]
  simp [bumpAt, List.getD_eq_getElem?_getD, List.getElem?_set_self, hlt]

/-- Witness for `pkt_type_masked_count` at a concrete sample with
`pkt_type = 0xFF` in the initial state. -/
theorem pkt_type_masked_count_witness :
    (process_packet HIST_BY_NETNS demoSample none none initState).by_type
        = bumpAt initState.by_type (demoSample.pkt_type &&& PKT_TYPE_MAX) ∧
    demoSample.pkt_type &&& PKT_TYPE_MAX ≤ 7 ∧
    (process_packet HIST_BY_NETNS demoSample none none initState).by_type.getD
        (demoSample.pkt_type &&& PKT_TYPE_MAX) 0
      = initState.by_type.getD (demoSample.pkt_type &&& PKT_TYPE_MAX) 0 + 1 ∧
    0xFF &&& PKT_TYPE_MAX = 7 ∧
    drop_by_type_str.getD 7 "" = "to-kernel" :=
  pkt_type_masked_count HIST_BY_NETNS demoSample none none initState rfl

/-- **C8.** Under destination-IPv4 or source-IPv4 grouping, a sample whose
parsed flow is not an IPv4 packet never touches the histogram store:
`do_histogram` returns it unchanged (the `fl->proto != ETH_P_IP` early
return at pktdrop.c:655-656), while the sample is still counted in the
global and location counters by `process_packet`. -/
theorem ipv4_grouping_excludes_non_ipv4 (mode : Nat)
    (hm : mode = HIST_BY_DIP ∨ mode = HIST_BY_SIP) (fl : FlowKey)
    (hp : ¬ fl.proto = ETH_P_IP) (netns : Nat) (s : List DropHist)
    (data : SampleData) (sym : Option Ksym) (st : GState) :
    do_histogram mode fl netns s = s ∧
    (process_packet mode data sym (some fl) st).hists = st.hists ∧
    (process_packet mode data sym (some fl) st).total_drops = st.total_drops + 1 ∧
    (process_packet mode data sym (some fl) st).locs
      = record_loc_drop data.location
          (match sym with | some s2 => s2.name | none => "") st.locs := by
  have h1 : ∀ (nn : Nat) (s2 : List DropHist), do_histogram mode fl nn s2 = s2 := by
    intro nn s2
    have ha : hist_addr mode fl nn = none := by
      rcases hm with h | h <;> subst h <;>
        simp [hist_addr, HIST_BY_NETNS, HIST_BY_FLOW, HIST_BY_DMAC, HIST_BY_SMAC,
              HIST_BY_DIP, HIST_BY_SIP, hp]
    simp [do_histogram, ha]
  refine ⟨h1 netns s, ?_, process_packet_total mode data sym (some fl) st,
          process_packet_locs mode data sym (some fl) st⟩
  cases sym with
  | none => simp [process_packet, h1]
  | some sy => cases hs : sy.is_unix <;> simp [process_packet, hs, h1]

/-- Witness for `ipv4_grouping_excludes_non_ipv4`: an ARP flow under
destination-IP grouping leaves the (empty) histogram store empty. -/
theorem ipv4_grouping_excludes_non_ipv4_witness :
    do_histogram HIST_BY_DIP { mkFlow 0 with proto := ETH_P_ARP } 7 [] = [] ∧
    (process_packet HIST_BY_DIP demoSample none
        (some { mkFlow 0 with proto := ETH_P_ARP }) initState).hists
      = initState.hists ∧
    (process_packet HIST_BY_DIP demoSample none
        (some { mkFlow 0 with proto := ETH_P_ARP }) initState).total_drops
      = initState.total_drops + 1 ∧
    (process_packet HIST_BY_DIP demoSample none
        (some { mkFlow 0 with proto := ETH_P_ARP }) initState).locs
      = record_loc_drop demoSample.location "" initState.locs :=
  ipv4_grouping_excludes_non_ipv4 HIST_BY_DIP (Or.inl rfl)
    { mkFlow 0 with proto := ETH_P_ARP } (by decide) 7 []
    demoSample none initState

/-- **C7.** A sample whose raw packet bytes fail to parse (the
`parse_pkt` collaborator reports failure, pktdrop.c:720-723) is non-fatal:
the global total, its packet-type slot, and the location entry's cycle
total have already been incremented, one diagnostic line is emitted, and
the histogram store is untouched.  (The parse is only reached when the
resolved symbol is not a unix-socket drop point.) -/
theorem parse_failure_nonfatal (mode : Nat) (data : SampleData) (sym : Option Ksym)
    (st : GState) (hlen : st.by_type.length = 8)
    (hunix : (match sym with | some s => s.is_unix | none => false) = false) :
    (process_packet mode data sym none st).total_drops = st.total_drops + 1 ∧
    (process_packet mode data sym none st).by_type.getD
        (data.pkt_type &&& PKT_TYPE_MAX) 0
      = st.by_type.getD (data.pkt_type &&& PKT_TYPE_MAX) 0 + 1 ∧
    (lookup_dropl data.location (process_packet mode data sym none st).locs).map
        DropLoc.total_drops
      = some ((match lookup_dropl data.location st.locs with
               | some e => e.total_drops
               | none => 0) + 1) ∧
    (process_packet mode data sym none st).stderr_lines = st.stderr_lines + 1 ∧
    (process_packet mode data sym none st).hists = st.hists := by
  refine ⟨process_packet_total mode data sym none st,
          (pkt_type_masked_count mode data sym none st hlen).2.2.1, ?_, ?_, ?_⟩
  · rw [process_packet_locs mode data sym none st, lookup_record_loc]
    cases h2 : lookup_dropl data.location st.locs <;> simp [h2]
  · cases sym with
    | none => simp [process_packet]
    | some sy =>
      have hu : sy.is_unix = false := hunix
      simp [process_packet, hu]
  · cases sym with
    | none => simp [process_packet]
    | some sy =>
      have hu : sy.is_unix = false := hunix
      simp [process_packet, hu]

/-- Witness for `parse_failure_nonfatal` at a concrete unresolvable-symbol
sample in the initial state. -/
theorem parse_failure_nonfatal_witness :
    (process_packet HIST_BY_NETNS demoSample none none initState).total_drops
        = initState.total_drops + 1 ∧
    (process_packet HIST_BY_NETNS demoSample none none initState).by_type.getD
        (demoSample.pkt_type &&& PKT_TYPE_MAX) 0
      = initState.by_type.getD (demoSample.pkt_type &&& PKT_TYPE_MAX) 0 + 1 ∧
    (lookup_dropl demoSample.location
        (process_packet HIST_BY_NETNS demoSample none none initState).locs).map
        DropLoc.total_drops
      = some ((match lookup_dropl demoSample.location initState.locs with
               | some e => e.total_drops
               | none => 0) + 1) ∧
    (process_packet HIST_BY_NETNS demoSample none none initState).stderr_lines
        = initState.stderr_lines + 1 ∧
    (process_packet HIST_BY_NETNS demoSample none none initState).hists
        = initState.hists :=
  parse_failure_nonfatal HIST_BY_NETNS demoSample none initState rfl rfl

theorem process_exit_addrs (a : Nat) (s : List DropHist) :
    (process_exit a s).map DropHist.addr = s.map DropHist.addr := by
  rw [process_exit]
  split
  · exact updAtHist_addrs a (fun e => { e with dead := true }) (fun e => rfl) s
  · rfl

theorem show_hist_buckets_addrs (thresh : Nat) (s : List DropHist) :
    (show_hist_buckets thresh s).map DropHist.addr = s.map DropHist.addr :=
  map_addrs_hist _ (show_hist_entry_addr thresh) s

theorem show_flow_buckets_addrs (s : List DropHist) :
    (show_flow_buckets s).map DropHist.addr = s.map DropHist.addr :=
  map_addrs_hist _ show_flow_entry_addr s

/-- **C6.** An exit event whose namespace identifier has an entry in the
histogram store marks that entry dead immediately via a non-creating
lookup (pktdrop.c:623-632), whatever its cycle total and aging credit, and
the removal pass of the very next sweep (`cleanup_hist_buckets`, run after
either render pass) removes it — even though the render pass resets the
aging credit of an entry with fresh drops to 3, it never clears `dead`. -/
theorem exit_marks_group_dead (thresh a : Nat) (s : List DropHist)
    (hnd : (s.map DropHist.addr).Nodup) (e : DropHist)
    (he : lookup_droph a s = some e) :
    lookup_droph a (process_exit a s) = some { e with dead := true } ∧
    lookup_droph a (hist_cycle thresh (process_exit a s)) = none ∧
    lookup_droph a (flow_cycle (process_exit a s)) = none := by
  have h1 : lookup_droph a (process_exit a s) = some { e with dead := true } := by
    rw [process_exit, if_pos (by rw [he]; rfl)]
    rw [lookup_updAtHist a (fun e2 => { e2 with dead := true }) (fun e2 => rfl) s, he]
    rfl
  refine ⟨h1, ?_, ?_⟩
  · have h2 : lookup_droph a (show_hist_buckets thresh (process_exit a s))
        = some (show_hist_entry thresh { e with dead := true }) := by
      rw [show_hist_buckets,
          lookup_droph_map _ (show_hist_entry_addr thresh) a _, h1]
      rfl
    have hnd2 : ((show_hist_buckets thresh (process_exit a s)).map
        DropHist.addr).Nodup := by
      rw [show_hist_buckets_addrs, process_exit_addrs]; exact hnd
    rw [hist_cycle, cleanup_hist_buckets, lookup_droph_filter _ a _ hnd2, h2]
    simp [show_hist_entry_dead thresh { e with dead := true } rfl]
  · have h2 : lookup_droph a (show_flow_buckets (process_exit a s))
        = some (show_flow_entry { e with dead := true }) := by
      rw [show_flow_buckets, lookup_droph_map _ show_flow_entry_addr a _, h1]
      rfl
    have hnd2 : ((show_flow_buckets (process_exit a s)).map
        DropHist.addr).Nodup := by
      rw [show_flow_buckets_addrs, process_exit_addrs]; exact hnd
    rw [flow_cycle, cleanup_hist_buckets, lookup_droph_filter _ a _ hnd2, h2]
    simp [show_flow_entry_dead { e with dead := true } rfl]

/-- Witness for `exit_marks_group_dead`: namespace 0x2000 with a nonzero
cycle total (7 fresh drops) is dead after the exit event and gone after
the next cycle. -/
theorem exit_marks_group_dead_witness :
    lookup_droph 0x2000 (process_exit 0x2000 [demoHistEntry])
        = some { demoHistEntry with dead := true } ∧
    lookup_droph 0x2000 (hist_cycle 1 (process_exit 0x2000 [demoHistEntry])) = none ∧
    lookup_droph 0x2000 (flow_cycle (process_exit 0x2000 [demoHistEntry])) = none :=
  exit_marks_group_dead 1 0x2000 [demoHistEntry] (by decide) demoHistEntry (by decide)

/-! ## Aging facts and store invariants -/

theorem age_dropl_facts (e : DropLoc) (h2 : e.aging ≤ 3)
    (h3 : e.total_drops ≠ 0 ∨ 1 ≤ e.aging) :
    (age_dropl e).aging ≤ 3 ∧ (age_dropl e).total_drops = 0 ∧
    ((age_dropl e).dead = false → 1 ≤ (age_dropl e).aging) := by
  by_cases hz : e.total_drops = 0
  · have hge : 1 ≤ e.aging := by
      rcases h3 with h3 | h3
      · exact absurd hz h3
      · exact h3
    have ha : (e.aging + 255) % 256 = e.aging - 1 := by
      have hcase : e.aging = 1 ∨ e.aging = 2 ∨ e.aging = 3 := by omega
      rcases hcase with h | h | h <;> simp [h]
    refine ⟨?_, ?_, ?_⟩ <;> simp [age_dropl, hz, ha]
    · omega
    · intro hd hd2
      omega
  · simp [age_dropl, hz]

theorem age_droph_facts (e : DropHist) (h2 : e.aging ≤ 3)
    (h3 : e.total_drops ≠ 0 ∨ 1 ≤ e.aging) :
    (age_droph e).aging ≤ 3 ∧ (age_droph e).total_drops = 0 ∧
    ((age_droph e).dead = false → 1 ≤ (age_droph e).aging) := by
  by_cases hz : e.total_drops = 0
  · have hge : 1 ≤ e.aging := by
      rcases h3 with h3 | h3
      · exact absurd hz h3
      · exact h3
    have ha : (e.aging + 255) % 256 = e.aging - 1 := by
      have hcase : e.aging = 1 ∨ e.aging = 2 ∨ e.aging = 3 := by omega
      rcases hcase with h | h | h <;> simp [h]
    refine ⟨?_, ?_, ?_⟩ <;> simp [age_droph, hz, ha]
    · omega
    · intro hd hd2
      omega
  · simp [age_droph, hz]

theorem show_hist_entry_facts (thresh : Nat) (e : DropHist) (h2 : e.aging ≤ 3)
    (h3 : e.total_drops ≠ 0 ∨ 1 ≤ e.aging) :
    (show_hist_entry thresh e).aging ≤ 3 ∧
    (show_hist_entry thresh e).total_drops = 0 ∧
    ((show_hist_entry thresh e).dead = false → 1 ≤ (show_hist_entry thresh e).aging) := by
  simp only [show_hist_entry]
  split
  · exact age_droph_facts e h2 h3
  · cases hp : e.payload <;> exact age_droph_facts _ h2 h3

theorem show_flow_entry_facts (e : DropHist) (h2 : e.aging ≤ 3)
    (h3 : e.total_drops ≠ 0 ∨ 1 ≤ e.aging) :
    (show_flow_entry e).aging ≤ 3 ∧
    (show_flow_entry e).total_drops = 0 ∧
    ((show_flow_entry e).dead = false → 1 ≤ (show_flow_entry e).aging) := by
  simp only [show_flow_entry]
  cases hp : e.payload <;> exact age_droph_facts _ h2 h3

theorem lookup_dropl_isSome_of_mem (a : Nat) (s : List DropLoc)
    (h : a ∈ s.map DropLoc.addr) : (lookup_dropl a s).isSome = true := by
  induction s with
  | nil => simp at h
  | cons e s ih =>
    rw [List.map_cons, List.mem_cons] at h
    by_cases hx : e.addr = a
    · simp [lookup_dropl, hx]
    · rcases h with h | h
      · exact absurd h.symm hx
      · simp [lookup_dropl, hx, ih h]

theorem lookup_droph_isSome_of_mem (a : Nat) (s : List DropHist)
    (h : a ∈ s.map DropHist.addr) : (lookup_droph a s).isSome = true := by
  induction s with
  | nil => simp at h
  | cons e s ih =>
    rw [List.map_cons, List.mem_cons] at h
    by_cases hx : e.addr = a
    · simp [lookup_droph, hx]
    · rcases h with h | h
      · exact absurd h.symm hx
      · simp [lookup_droph, hx, ih h]

theorem mem_insertSortedLoc (x e : DropLoc) (s : List DropLoc) :
    x ∈ insertSortedLoc e s ↔ x = e ∨ x ∈ s := by
  rw [(insertSortedLoc_perm e s).mem_iff, List.mem_cons]

theorem mem_insertSortedHist (x e : DropHist) (s : List DropHist) :
    x ∈ insertSortedHist e s ↔ x = e ∨ x ∈ s := by
  rw [(insertSortedHist_perm e s).mem_iff, List.mem_cons]

theorem insertSortedLoc_addrs_nodup (e : DropLoc) (s : List DropLoc)
    (hnd : (s.map DropLoc.addr).Nodup) (hne : e.addr ∉ s.map DropLoc.addr) :
    ((insertSortedLoc e s).map DropLoc.addr).Nodup := by
  have hp : List.Perm ((insertSortedLoc e s).map DropLoc.addr)
      (e.addr :: s.map DropLoc.addr) := (insertSortedLoc_perm e s).map DropLoc.addr
  exact (List.nodup_cons.mpr ⟨hne, hnd⟩).perm hp.symm

theorem insertSortedHist_addrs_nodup (e : DropHist) (s : List DropHist)
    (hnd : (s.map DropHist.addr).Nodup) (hne : e.addr ∉ s.map DropHist.addr) :
    ((insertSortedHist e s).map DropHist.addr).Nodup := by
  have hp : List.Perm ((insertSortedHist e s).map DropHist.addr)
      (e.addr :: s.map DropHist.addr) := (insertSortedHist_perm e s).map DropHist.addr
  exact (List.nodup_cons.mpr ⟨hne, hnd⟩).perm hp.symm

theorem bump_droph_addr (mode : Nat) (fl : FlowKey) (e : DropHist) :
    (bump_droph mode fl e).addr = e.addr := by
  rcases e with ⟨a, n, d, g, dd, pl⟩
  by_cases hm : mode = HIST_BY_FLOW <;> cases pl <;> simp [bump_droph, hm]

theorem bump_droph_aging (mode : Nat) (fl : FlowKey) (e : DropHist) :
    (bump_droph mode fl e).aging = e.aging := by
  rcases e with ⟨a, n, d, g, dd, pl⟩
  by_cases hm : mode = HIST_BY_FLOW <;> cases pl <;> simp [bump_droph, hm]

theorem bump_droph_total (mode : Nat) (fl : FlowKey) (e : DropHist) :
    (bump_droph mode fl e).total_drops = e.total_drops + 1 := by
  rcases e with ⟨a, n, d, g, dd, pl⟩
  by_cases hm : mode = HIST_BY_FLOW <;> cases pl <;> simp [bump_droph, hm]

/-- Every reachable location-store state satisfies `LocInv`. -/
theorem loc_reach_inv {s : List DropLoc} (h : LocReach s) : LocInv s := by
  induction h with
  | empty => exact ⟨by simp, by simp⟩
  | @drop s2 a n hr ih =>
    obtain ⟨hent, hnd⟩ := ih
    rw [record_loc_drop]
    split
    · refine ⟨?_, ?_⟩
      · intro e2 he2
        rw [updAtLoc] at he2
        obtain ⟨e, he, rfl⟩ := List.mem_map.mp he2
        by_cases hx : e.addr = a
        · obtain ⟨h1, h2, h3⟩ := hent e he
          simp only [if_pos hx]
          exact ⟨h1, h2, Or.inl (by simp)⟩
        · simp only [if_neg hx]
          exact hent e he
      · rw [updAtLoc_addrs a
            (fun e => { e with total_drops := e.total_drops + 1 }) (fun e => rfl)]
        exact hnd
    · rename_i hnone
      have hne : a ∉ s2.map DropLoc.addr := by
        intro hmem
        exact hnone (lookup_dropl_isSome_of_mem a s2 hmem)
      refine ⟨?_, insertSortedLoc_addrs_nodup _ s2 hnd hne⟩
      intro e2 he2
      rcases (mem_insertSortedLoc e2 _ s2).mp he2 with h | h
      · subst h
        exact ⟨rfl, by norm_num, Or.inl (by norm_num)⟩
      · exact hent e2 h
  | @sweep s2 hr ih =>
    obtain ⟨hent, hnd⟩ := ih
    refine ⟨?_, ?_⟩
    · intro e2 he2
      rw [show_loc_entries, List.mem_filter] at he2
      obtain ⟨he2m, he2d⟩ := he2
      obtain ⟨e, he, rfl⟩ := List.mem_map.mp he2m
      obtain ⟨h1, h2, h3⟩ := hent e he
      obtain ⟨f1, f2, f3⟩ := age_dropl_facts e h2 h3
      have hdd : (age_dropl e).dead = false := by
        revert he2d
        cases (age_dropl e).dead <;> simp
      exact ⟨hdd, f1, Or.inr (f3 hdd)⟩
    · rw [show_loc_entries]
      have hsub : List.Sublist
          ((((s2.map age_dropl).filter (fun e => !e.dead)).map DropLoc.addr))
          ((s2.map age_dropl).map DropLoc.addr) :=
        (List.filter_sublist _).map DropLoc.addr
      rw [map_addrs_loc age_dropl age_dropl_addr s2] at hsub
      exact hnd.sublist hsub

/-- Every reachable histogram-store state satisfies `HistInv`. -/
theorem hist_reach_inv {mode thresh : Nat} {s : List DropHist}
    (h : HistReach mode thresh s) : HistInv s := by
  induction h with
  | empty => exact ⟨by simp, by simp⟩
  | @drop s2 fl netns hr ih =>
    obtain ⟨hent, hnd⟩ := ih
    rw [do_histogram]
    cases ha : hist_addr mode fl netns with
    | none => exact ⟨hent, hnd⟩
    | some a =>
      simp only []
      split
      · refine ⟨?_, ?_⟩
        · intro e2 he2
          rw [updAtHist] at he2
          obtain ⟨e, he, rfl⟩ := List.mem_map.mp he2
          by_cases hx : e.addr = a
          · obtain ⟨h2, h3⟩ := hent e he
            simp only [if_pos hx]
            rw [bump_droph_aging, bump_droph_total]
            exact ⟨h2, Or.inl (by omega)⟩
          · simp only [if_neg hx]
            exact hent e he
        · rw [updAtHist_addrs a (bump_droph mode fl) (bump_droph_addr mode fl)]
          exact hnd
      · rename_i hnone
        have hne0 : a ∉ s2.map DropHist.addr := by
          intro hmem
          exact hnone (lookup_droph_isSome_of_mem a s2 hmem)
        have hne : (bump_droph mode fl (new_droph mode a)).addr ∉ s2.map DropHist.addr := by
          rw [bump_droph_addr]
          exact hne0
        refine ⟨?_, insertSortedHist_addrs_nodup _ s2 hnd hne⟩
        intro e2 he2
        rcases (mem_insertSortedHist e2 _ s2).mp he2 with h | h
        · subst h
          rw [bump_droph_aging, bump_droph_total]
          exact ⟨by norm_num [new_droph], Or.inl (by norm_num [new_droph])⟩
        · exact hent e2 h
  | @exitEv s2 netns hr ih =>
    obtain ⟨hent, hnd⟩ := ih
    rw [process_exit]
    split
    · refine ⟨?_, ?_⟩
      · intro e2 he2
        rw [updAtHist] at he2
        obtain ⟨e, he, rfl⟩ := List.mem_map.mp he2
        by_cases hx : e.addr = netns
        · obtain ⟨h2, h3⟩ := hent e he
          simp only [if_pos hx]
          exact ⟨h2, h3⟩
        · simp only [if_neg hx]
          exact hent e he
      · rw [updAtHist_addrs netns (fun e => { e with dead := true }) (fun e => rfl)]
        exact hnd
    · exact ⟨hent, hnd⟩
  | @sweepHist s2 hr ih =>
    obtain ⟨hent, hnd⟩ := ih
    refine ⟨?_, ?_⟩
    · intro e2 he2
      rw [hist_cycle, cleanup_hist_buckets, List.mem_filter] at he2
      obtain ⟨he2m, he2d⟩ := he2
      rw [show_hist_buckets] at he2m
      obtain ⟨e, he, rfl⟩ := List.mem_map.mp he2m
      obtain ⟨h2, h3⟩ := hent e he
      obtain ⟨f1, f2, f3⟩ := show_hist_entry_facts thresh e h2 h3
      have hdd : (show_hist_entry thresh e).dead = false := by
        revert he2d
        cases (show_hist_entry thresh e).dead <;> simp
      exact ⟨f1, Or.inr (f3 hdd)⟩
    · rw [hist_cycle, cleanup_hist_buckets]
      have hsub : List.Sublist
          ((((show_hist_buckets thresh s2).filter (fun e => !e.dead)).map DropHist.addr))
          ((show_hist_buckets thresh s2).map DropHist.addr) :=
        (List.filter_sublist _).map DropHist.addr
      rw [show_hist_buckets_addrs thresh s2] at hsub
      exact hnd.sublist hsub
  | @sweepFlow s2 hr ih =>
    obtain ⟨hent, hnd⟩ := ih
    refine ⟨?_, ?_⟩
    · intro e2 he2
      rw [flow_cycle, cleanup_hist_buckets, List.mem_filter] at he2
      obtain ⟨he2m, he2d⟩ := he2
      rw [show_flow_buckets] at he2m
      obtain ⟨e, he, rfl⟩ := List.mem_map.mp he2m
      obtain ⟨h2, h3⟩ := hent e he
      obtain ⟨f1, f2, f3⟩ := show_flow_entry_facts e h2 h3
      have hdd : (show_flow_entry e).dead = false := by
        revert he2d
        cases (show_flow_entry e).dead <;> simp
      exact ⟨f1, Or.inr (f3 hdd)⟩
    · rw [flow_cycle, cleanup_hist_buckets]
      have hsub : List.Sublist
          ((((show_flow_buckets s2).filter (fun e => !e.dead)).map DropHist.addr))
          ((show_flow_buckets s2).map DropHist.addr) :=
        (List.filter_sublist _).map DropHist.addr
      rw [show_flow_buckets_addrs s2] at hsub
      exact hnd.sublist hsub

theorem lookup_dropl_mem (a : Nat) (s : List DropLoc) (e : DropLoc)
    (h : lookup_dropl a s = some e) : e ∈ s := by
  induction s with
  | nil => simp [lookup_dropl] at h
  | cons x xs ih =>
    rw [lookup_dropl] at h
    by_cases hx : x.addr = a
    · rw [if_pos hx] at h
      injection h with h2
      subst h2
      exact List.mem_cons_self x xs
    · rw [if_neg hx] at h
      exact List.mem_cons_of_mem x (ih h)

theorem lookup_droph_mem (a : Nat) (s : List DropHist) (e : DropHist)
    (h : lookup_droph a s = some e) : e ∈ s := by
  induction s with
  | nil => simp [lookup_droph] at h
  | cons x xs ih =>
    rw [lookup_droph] at h
    by_cases hx : x.addr = a
    · rw [if_pos hx] at h
      injection h with h2
      subst h2
      exact List.mem_cons_self x xs
    · rw [if_neg hx] at h
      exact List.mem_cons_of_mem x (ih h)

theorem lookup_show_loc (a : Nat) (s : List DropLoc)
    (hnd : (s.map DropLoc.addr).Nodup) :
    lookup_dropl a (show_loc_entries s)
      = (lookup_dropl a s).bind
          (fun e => if (age_dropl e).dead then none else some (age_dropl e)) := by
  have hnd2 : ((s.map age_dropl).map DropLoc.addr).Nodup := by
    rw [map_addrs_loc age_dropl age_dropl_addr]; exact hnd
  rw [show_loc_entries, lookup_dropl_filter _ a _ hnd2,
      lookup_dropl_map age_dropl age_dropl_addr]
  cases h : lookup_dropl a s with
  | none => rfl
  | some e => cases hd : (age_dropl e).dead <;> simp [hd]

theorem lookup_hist_cycle (thresh a : Nat) (s : List DropHist)
    (hnd : (s.map DropHist.addr).Nodup) :
    lookup_droph a (hist_cycle thresh s)
      = (lookup_droph a s).bind
          (fun e => if (show_hist_entry thresh e).dead then none
                    else some (show_hist_entry thresh e)) := by
  have hnd2 : ((show_hist_buckets thresh s).map DropHist.addr).Nodup := by
    rw [show_hist_buckets_addrs]; exact hnd
  rw [hist_cycle, cleanup_hist_buckets, lookup_droph_filter _ a _ hnd2,
      show_hist_buckets, lookup_droph_map _ (show_hist_entry_addr thresh)]
  cases h : lookup_droph a s with
  | none => rfl
  | some e => cases hd : (show_hist_entry thresh e).dead <;> simp [hd]

theorem show_hist_entry_below (thresh : Nat) (e : DropHist)
    (h : e.total_drops < thresh) : show_hist_entry thresh e = age_droph e := by
  simp [show_hist_entry, h]

/-- Three consecutive sweeps with zero cycle drops take a live location
entry with full credit through credits 2 and 1 and then remove it. -/
theorem three_zero_sweeps_loc (s : List DropLoc) (a : Nat) (e : DropLoc)
    (hr : LocReach s) (he : lookup_dropl a s = some e)
    (hg : e.aging = 3) (hz : e.total_drops = 0) :
    lookup_dropl a (show_loc_entries s)
        = some { e with aging := 2, dead := false, total_drops := 0 } ∧
    lookup_dropl a (show_loc_entries (show_loc_entries s))
        = some { e with aging := 1, dead := false, total_drops := 0 } ∧
    lookup_dropl a (show_loc_entries (show_loc_entries (show_loc_entries s)))
        = none := by
  obtain ⟨hent, hnd⟩ := loc_reach_inv hr
  have hdead : e.dead = false := (hent e (lookup_dropl_mem a s e he)).1
  have k1 : age_dropl e = { e with aging := 2, dead := false, total_drops := 0 } := by
    simp [age_dropl, hz, hg, hdead]
  have s1 : lookup_dropl a (show_loc_entries s)
      = some { e with aging := 2, dead := false, total_drops := 0 } := by
    rw [lookup_show_loc a s hnd, he]
    simp [k1]
  have hnd1 : ((show_loc_entries s).map DropLoc.addr).Nodup :=
    (loc_reach_inv hr.sweep).2
  have k2 : age_dropl { e with aging := 2, dead := false, total_drops := 0 }
      = { e with aging := 1, dead := false, total_drops := 0 } := by
    simp [age_dropl]
  have s2 : lookup_dropl a (show_loc_entries (show_loc_entries s))
      = some { e with aging := 1, dead := false, total_drops := 0 } := by
    rw [lookup_show_loc a _ hnd1, s1]
    simp [k2]
  have hnd2 : ((show_loc_entries (show_loc_entries s)).map DropLoc.addr).Nodup :=
    (loc_reach_inv hr.sweep.sweep).2
  have k3 : (age_dropl { e with aging := 1, dead := false, total_drops := 0 }).dead
      = true := by
    simp [age_dropl]
  refine ⟨s1, s2, ?_⟩
  rw [lookup_show_loc a _ hnd2, s2]
  simp [k3]

/-- Three consecutive sweeps with zero cycle drops take a live
histogram-group entry with full credit through credits 2 and 1 and then
remove it (display threshold at least 1, as the program guarantees). -/
theorem three_zero_sweeps_hist (mode thresh : Nat) (s : List DropHist) (a : Nat)
    (e : DropHist) (ht : 1 ≤ thresh) (hr : HistReach mode thresh s)
    (he : lookup_droph a s = some e) (hg : e.aging = 3) (hz : e.total_drops = 0)
    (hdead : e.dead = false) :
    lookup_droph a (hist_cycle thresh s)
        = some { e with aging := 2, dead := false, total_drops := 0 } ∧
    lookup_droph a (hist_cycle thresh (hist_cycle thresh s))
        = some { e with aging := 1, dead := false, total_drops := 0 } ∧
    lookup_droph a (hist_cycle thresh (hist_cycle thresh (hist_cycle thresh s)))
        = none := by
  obtain ⟨hent, hnd⟩ := hist_reach_inv hr
  have hb : e.total_drops < thresh := by omega
  have k1 : show_hist_entry thresh e
      = { e with aging := 2, dead := false, total_drops := 0 } := by
    rw [show_hist_entry_below thresh e hb]
    simp [age_droph, hz, hg, hdead]
  have s1 : lookup_droph a (hist_cycle thresh s)
      = some { e with aging := 2, dead := false, total_drops := 0 } := by
    rw [lookup_hist_cycle thresh a s hnd, he]
    simp [k1]
  have hnd1 : ((hist_cycle thresh s).map DropHist.addr).Nodup :=
    (hist_reach_inv hr.sweepHist).2
  have k2 : show_hist_entry thresh { e with aging := 2, dead := false, total_drops := 0 }
      = { e with aging := 1, dead := false, total_drops := 0 } := by
    rw [show_hist_entry_below thresh _ (by simpa using ht)]
    simp [age_droph]
  have s2 : lookup_droph a (hist_cycle thresh (hist_cycle thresh s))
      = some { e with aging := 1, dead := false, total_drops := 0 } := by
    rw [lookup_hist_cycle thresh a _ hnd1, s1]
    simp [k2]
  have hnd2 : ((hist_cycle thresh (hist_cycle thresh s)).map DropHist.addr).Nodup :=
    (hist_reach_inv hr.sweepHist.sweepHist).2
  have k3 : (show_hist_entry thresh
      { e with aging := 1, dead := false, total_drops := 0 }).dead = true := by
    rw [show_hist_entry_below thresh _ (by simpa using ht)]
    simp [age_droph]
  refine ⟨s1, s2, ?_⟩
  rw [lookup_hist_cycle thresh a _ hnd2, s2]
  simp [k3]

/-- The render step of `show_hist_buckets` only zeroes the rendered
bucket counters (pktdrop.c:456-460); the entry's drop total, aging credit
and dead flag come out of the sweep exactly as `age_droph` leaves them. -/
theorem show_hist_entry_counters (thresh : Nat) (e : DropHist) :
    (show_hist_entry thresh e).aging = (age_droph e).aging ∧
    (show_hist_entry thresh e).total_drops = (age_droph e).total_drops ∧
    (show_hist_entry thresh e).dead = (age_droph e).dead := by
  simp only [show_hist_entry]
  split
  · exact ⟨rfl, rfl, rfl⟩
  · cases hp : e.payload <;> by_cases hz : e.total_drops = 0 <;>
      simp [age_droph, hz]

/-- The flow-mode render step only sweeps the nested flow bucket
(pktdrop.c:394-408); the entry's drop total, aging credit and dead flag
come out of the sweep exactly as `age_droph` leaves them. -/
theorem show_flow_entry_counters (e : DropHist) :
    (show_flow_entry e).aging = (age_droph e).aging ∧
    (show_flow_entry e).total_drops = (age_droph e).total_drops ∧
    (show_flow_entry e).dead = (age_droph e).dead := by
  simp only [show_flow_entry]
  cases hp : e.payload <;> by_cases hz : e.total_drops = 0 <;>
    simp [age_droph, hz]

/-- **C3, counterexample.** A freshly created location entry has aging
credit 0, not 3: `new_dropl`/`calloc` zero-initialises the record
(pktdrop.c:264-267), and nothing sets the credit at creation — it first
becomes 3 at the entry's first sweep, because the creation cycle always
records a drop.  The claim's "starting at 3 on creation" is therefore
false at this input. -/
theorem aging_starts_at_zero_cex :
    record_loc_drop 4096 "nf_hook_slow" []
      = [{ addr := 4096, name := "nf_hook_slow", total_drops := 1,
           aging := 0, dead := false }] ∧
    ¬ (0 : Nat) = 3 := by
  exact ⟨by decide, by decide⟩

/-- **C3, amended.** For every entry of the location store or of the
histogram-group store: each sweep sets the aging credit to 3 when the
per-cycle drop counter is non-zero and otherwise decrements it by 1; on
every reachable store state the credit lies in {0,1,2,3}, starting at 0 on
creation (not 3 — the first sweep sets it to 3, since the creation cycle
always records a drop); an entry whose credit reaches 0 is marked dead
during the sweep and is absent after the removal pass; an entry with zero
cycle drops for exactly 3 consecutive sweeps survives the first two with
credits 2 and 1 and is dead and removed by the third.  The
reset-to-3/decrement equations and the credit-0 creation are stated for
both stores: `age_dropl`/`record_loc_drop` on the location side, and
`age_droph`, both render passes (`show_hist_entry`/`show_flow_entry`) and
`new_droph`/`do_histogram` on the histogram side. -/
theorem aging_discipline :
    (∀ e : DropLoc, e.total_drops ≠ 0 →
      age_dropl e = { e with aging := 3, total_drops := 0 }) ∧
    (∀ e : DropLoc, e.total_drops = 0 → 1 ≤ e.aging → e.aging ≤ 3 →
      age_dropl e =
        { e with
            aging := e.aging - 1,
            dead := e.dead || decide (e.aging - 1 = 0),
            total_drops := 0 }) ∧
    (∀ s : List DropLoc, LocReach s → ∀ e ∈ s, e.aging ≤ 3) ∧
    (∀ (mode thresh : Nat) (s : List DropHist), HistReach mode thresh s →
      ∀ e ∈ s, e.aging ≤ 3) ∧
    (∀ (a : Nat) (n : String), record_loc_drop a n []
      = [{ addr := a, name := n, total_drops := 1, aging := 0, dead := false }]) ∧
    (∀ s : List DropLoc, ∀ e2 ∈ show_loc_entries s, e2.dead = false) ∧
    (∀ (thresh : Nat) (s : List DropHist), ∀ e2 ∈ hist_cycle thresh s,
      e2.dead = false) ∧
    (∀ (s : List DropLoc) (a : Nat) (e : DropLoc), LocReach s →
      lookup_dropl a s = some e → e.aging = 3 → e.total_drops = 0 →
      lookup_dropl a (show_loc_entries s)
          = some { e with aging := 2, dead := false, total_drops := 0 } ∧
      lookup_dropl a (show_loc_entries (show_loc_entries s))
          = some { e with aging := 1, dead := false, total_drops := 0 } ∧
      lookup_dropl a (show_loc_entries (show_loc_entries (show_loc_entries s)))
          = none) ∧
    (∀ (mode thresh : Nat) (s : List DropHist) (a : Nat) (e : DropHist),
      1 ≤ thresh → HistReach mode thresh s → lookup_droph a s = some e →
      e.aging = 3 → e.total_drops = 0 → e.dead = false →
      lookup_droph a (hist_cycle thresh s)
          = some { e with aging := 2, dead := false, total_drops := 0 } ∧
      lookup_droph a (hist_cycle thresh (hist_cycle thresh s))
          = some { e with aging := 1, dead := false, total_drops := 0 } ∧
      lookup_droph a (hist_cycle thresh (hist_cycle thresh (hist_cycle thresh s)))
          = none) ∧
    (∀ e : DropHist, e.total_drops ≠ 0 →
      age_droph e = { e with aging := 3, total_drops := 0 }) ∧
    (∀ e : DropHist, e.total_drops = 0 → 1 ≤ e.aging → e.aging ≤ 3 →
      age_droph e =
        { e with
            aging := e.aging - 1,
            dead := e.dead || decide (e.aging - 1 = 0),
            total_drops := 0 }) ∧
    (∀ (thresh : Nat) (e : DropHist), e.total_drops ≠ 0 →
      (show_hist_entry thresh e).aging = 3 ∧
      (show_hist_entry thresh e).total_drops = 0 ∧
      (show_hist_entry thresh e).dead = e.dead ∧
      (show_flow_entry e).aging = 3 ∧
      (show_flow_entry e).total_drops = 0 ∧
      (show_flow_entry e).dead = e.dead) ∧
    (∀ (thresh : Nat) (e : DropHist), e.total_drops = 0 → 1 ≤ e.aging →
      e.aging ≤ 3 →
      (show_hist_entry thresh e).aging = e.aging - 1 ∧
      (show_hist_entry thresh e).total_drops = 0 ∧
      (show_hist_entry thresh e).dead = (e.dead || decide (e.aging - 1 = 0)) ∧
      (show_flow_entry e).aging = e.aging - 1 ∧
      (show_flow_entry e).total_drops = 0 ∧
      (show_flow_entry e).dead = (e.dead || decide (e.aging - 1 = 0))) ∧
    (∀ (mode a : Nat), (new_droph mode a).aging = 0) ∧
    (∀ (mode : Nat) (fl : FlowKey) (netns a : Nat),
      hist_addr mode fl netns = some a →
      do_histogram mode fl netns [] = [bump_droph mode fl (new_droph mode a)] ∧
      (bump_droph mode fl (new_droph mode a)).aging = 0 ∧
      (bump_droph mode fl (new_droph mode a)).total_drops = 1) := by
  refine ⟨?_, ?_, ?_, ?_, ?_, ?_, ?_, ?_, ?_, ?_, ?_, ?_, ?_, ?_, ?_⟩
  · intro e h
    simp [age_dropl, h]
  · intro e hz h1 h3
    have hcase : e.aging = 1 ∨ e.aging = 2 ∨ e.aging = 3 := by omega
    have ha : (e.aging + 255) % 256 = e.aging - 1 := by
      rcases hcase with h | h | h <;> simp [h]
    simp [age_dropl, hz, ha]
  · intro s hr e he
    exact ((loc_reach_inv hr).1 e he).2.1
  · intro mode thresh s hr e he
    exact ((hist_reach_inv hr).1 e he).1
  · intro a n
    rfl
  · intro s e2 he2
    rw [show_loc_entries, List.mem_filter] at he2
    revert he2
    cases e2.dead <;> simp
  · intro thresh s e2 he2
    rw [hist_cycle, cleanup_hist_buckets, List.mem_filter] at he2
    revert he2
    cases e2.dead <;> simp
  · intro s a e hr he hg hz
    exact three_zero_sweeps_loc s a e hr he hg hz
  · intro mode thresh s a e ht hr he hg hz hd
    exact three_zero_sweeps_hist mode thresh s a e ht hr he hg hz hd
  · intro e h
    simp [age_droph, h]
  · intro e hz h1 h3
    have hcase : e.aging = 1 ∨ e.aging = 2 ∨ e.aging = 3 := by omega
    have ha : (e.aging + 255) % 256 = e.aging - 1 := by
      rcases hcase with h | h | h <;> simp [h]
    simp [age_droph, hz, ha]
  · intro thresh e h
    obtain ⟨ca, ct, cd⟩ := show_hist_entry_counters thresh e
    obtain ⟨fa, ft, fd⟩ := show_flow_entry_counters e
    have hd : age_droph e = { e with aging := 3, total_drops := 0 } := by
      simp [age_droph, h]
    rw [ca, ct, cd, fa, ft, fd, hd]
    exact ⟨rfl, rfl, rfl, rfl, rfl, rfl⟩
  · intro thresh e hz h1 h3
    obtain ⟨ca, ct, cd⟩ := show_hist_entry_counters thresh e
    obtain ⟨fa, ft, fd⟩ := show_flow_entry_counters e
    have hcase : e.aging = 1 ∨ e.aging = 2 ∨ e.aging = 3 := by omega
    have ha : (e.aging + 255) % 256 = e.aging - 1 := by
      rcases hcase with h | h | h <;> simp [h]
    have hd : age_droph e =
        { e with
            aging := e.aging - 1,
            dead := e.dead || decide (e.aging - 1 = 0),
            total_drops := 0 } := by
      simp [age_droph, hz, ha]
    rw [ca, ct, cd, fa, ft, fd, hd]
    exact ⟨rfl, rfl, rfl, rfl, rfl, rfl⟩
  · intro mode a
    rfl
  · intro mode fl netns a ha
    refine ⟨?_, ?_, ?_⟩
    · simp [do_histogram, ha, lookup_droph, insertSortedHist]
    · rw [bump_droph_aging]
      rfl
    · rw [bump_droph_total]
      rfl

/-- Witness for `aging_discipline`: a location entry created by one drop,
swept once (credit 3), is gone after three further zero-drop sweeps. -/
theorem aging_discipline_witness :
    lookup_dropl 4096 (show_loc_entries (show_loc_entries (show_loc_entries
      (show_loc_entries (record_loc_drop 4096 "nf_hook_slow" []))))) = none := by
  have h := aging_discipline
  exact (h.2.2.2.2.2.2.2.1
    (show_loc_entries (record_loc_drop 4096 "nf_hook_slow" [])) 4096
    { addr := 4096, name := "nf_hook_slow", total_drops := 0,
      aging := 3, dead := false }
    (LocReach.sweep (LocReach.drop 4096 "nf_hook_slow" LocReach.empty))
    (by decide) rfl rfl).2.2

/-! ## Ordered-store uniqueness -/

theorem RBTree.keys_node {α : Type} (l : RBTree α) (k : Nat) (v : α) (r : RBTree α) :
    (RBTree.node l k v r).keys = l.keys ++ k :: r.keys := by
  simp [RBTree.keys, RBTree.toList]

theorem insert_ok_mem {α : Type} (t t2 : RBTree α) (k : Nat) (v : α)
    (h : insert_droph t k v = .ok t2) (x : Nat) :
    x ∈ t2.keys ↔ x = k ∨ x ∈ t.keys := by
  induction t generalizing t2 with
  | nil =>
    rw [insert_droph] at h
    injection h with h2
    subst h2
    simp [RBTree.keys_node, RBTree.keys, RBTree.toList]
  | node l k2 v2 r ihl ihr =>
    rw [insert_droph] at h
    by_cases h1 : k < k2
    · rw [if_pos h1] at h
      cases hl : insert_droph l k v with
      | ok l2 =>
        rw [hl] at h
        injection h with h2
        subst h2
        simp only [RBTree.keys_node, List.mem_append, List.mem_cons, ihl l2 hl]
        tauto
      | error e => rw [hl] at h; cases h
    · rw [if_neg h1] at h
      by_cases h2 : k2 < k
      · rw [if_pos h2] at h
        cases hr2 : insert_droph r k v with
        | ok r2 =>
          rw [hr2] at h
          injection h with h3
          subst h3
          simp only [RBTree.keys_node, List.mem_append, List.mem_cons, ihr r2 hr2]
          tauto
        | error e => rw [hr2] at h; cases h
      · rw [if_neg h2] at h
        cases h

theorem insert_error_of_mem {α : Type} (t : RBTree α) (k : Nat) (v : α)
    (ho : t.Ordered) (hm : k ∈ t.keys) :
    insert_droph t k v = .error (-EEXIST) := by
  induction t with
  | nil => simp [RBTree.keys, RBTree.toList] at hm
  | node l k2 v2 r ihl ihr =>
    obtain ⟨hbl, hbr, hol, hor⟩ := ho
    rw [RBTree.keys_node, List.mem_append, List.mem_cons] at hm
    rw [insert_droph]
    by_cases h1 : k < k2
    · rw [if_pos h1]
      have hkl : k ∈ l.keys := by
        rcases hm with h | h | h
        · exact h
        · omega
        · exact absurd (hbr k h) (by omega)
      rw [ihl hol hkl]
    · rw [if_neg h1]
      by_cases h2 : k2 < k
      · rw [if_pos h2]
        have hkr : k ∈ r.keys := by
          rcases hm with h | h | h
          · exact absurd (hbl k h) (by omega)
          · omega
          · exact h
        rw [ihr hor hkr]
      · rw [if_neg h2]

theorem insert_ok_ordered {α : Type} (t t2 : RBTree α) (k : Nat) (v : α)
    (ho : t.Ordered) (h : insert_droph t k v = .ok t2) : t2.Ordered := by
  induction t generalizing t2 with
  | nil =>
    rw [insert_droph] at h
    injection h with h2
    subst h2
    exact ⟨by simp [RBTree.keys, RBTree.toList],
           by simp [RBTree.keys, RBTree.toList], trivial, trivial⟩
  | node l k2 v2 r ihl ihr =>
    obtain ⟨hbl, hbr, hol, hor⟩ := ho
    rw [insert_droph] at h
    by_cases h1 : k < k2
    · rw [if_pos h1] at h
      cases hl : insert_droph l k v with
      | ok l2 =>
        rw [hl] at h
        injection h with h2
        subst h2
        refine ⟨?_, hbr, ihl l2 hol hl, hor⟩
        intro x hx
        rcases (insert_ok_mem l l2 k v hl x).mp hx with h | h
        · omega
        · exact hbl x h
      | error e => rw [hl] at h; cases h
    · rw [if_neg h1] at h
      by_cases h2 : k2 < k
      · rw [if_pos h2] at h
        cases hr2 : insert_droph r k v with
        | ok r2 =>
          rw [hr2] at h
          injection h with h3
          subst h3
          refine ⟨hbl, ?_, hol, ihr r2 hor hr2⟩
          intro x hx
          rcases (insert_ok_mem r r2 k v hr2 x).mp hx with h | h
          · omega
          · exact hbr x h
        | error e => rw [hr2] at h; cases h
      · rw [if_neg h2] at h
        cases h

theorem ordered_pairwise {α : Type} (t : RBTree α) (ho : t.Ordered) :
    t.keys.Pairwise (· < ·) := by
  induction t with
  | nil => simp [RBTree.keys, RBTree.toList]
  | node l k v r ihl ihr =>
    obtain ⟨hbl, hbr, hol, hor⟩ := ho
    rw [RBTree.keys_node, List.pairwise_append]
    refine ⟨ihl hol, ?_, ?_⟩
    · rw [List.pairwise_cons]
      exact ⟨hbr, ihr hor⟩
    · intro a ha b hb
      rcases List.mem_cons.mp hb with h | h
      · subst h; exact hbl a ha
      · exact lt_trans (hbl a ha) (hbr b h)

theorem keys_ofList {α : Type} (l : List (Nat × α)) :
    (RBTree.ofList l).keys = l.map Prod.fst := by
  induction l with
  | nil => rfl
  | cons p rest ih =>
    cases p with
    | mk k v =>
      rw [RBTree.ofList, RBTree.keys_node, ih]
      rfl

theorem ofList_ordered {α : Type} (l : List (Nat × α))
    (h : (l.map Prod.fst).Pairwise (· < ·)) : (RBTree.ofList l).Ordered := by
  induction l with
  | nil => trivial
  | cons p rest ih =>
    cases p with
    | mk k v =>
      rw [List.map_cons, List.pairwise_cons] at h
      refine ⟨?_, ?_, trivial, ih h.2⟩
      · simp [RBTree.keys, RBTree.toList]
      · rw [keys_ofList]
        exact h.1

theorem rb_erase_ordered {α : Type} (t : RBTree α) (k : Nat) (ho : t.Ordered) :
    (rb_erase t k).Ordered := by
  apply ofList_ordered
  have hp : (t.toList.map Prod.fst).Pairwise (· < ·) := ordered_pairwise t ho
  have hsub : List.Sublist ((t.toList.filter (fun p => p.1 != k)).map Prod.fst)
      (t.toList.map Prod.fst) := (List.filter_sublist _).map Prod.fst
  exact hp.sublist hsub

theorem findKey_isSome_of_mem {α : Type} (t : RBTree α) (k : Nat)
    (ho : t.Ordered) (hm : k ∈ t.keys) : (t.findKey k).isSome = true := by
  induction t with
  | nil => simp [RBTree.keys, RBTree.toList] at hm
  | node l k2 v2 r ihl ihr =>
    obtain ⟨hbl, hbr, hol, hor⟩ := ho
    rw [RBTree.keys_node, List.mem_append, List.mem_cons] at hm
    rw [RBTree.findKey]
    by_cases h1 : k < k2
    · rw [if_pos h1]
      apply ihl hol
      rcases hm with h | h | h
      · exact h
      · omega
      · exact absurd (hbr k h) (by omega)
    · rw [if_neg h1]
      by_cases h2 : k2 < k
      · rw [if_pos h2]
        apply ihr hor
        rcases hm with h | h | h
        · exact absurd (hbl k h) (by omega)
        · omega
        · exact h
      · simp [h2]

theorem store_ops_ordered {α : Type} {mk : Nat → α} {t : RBTree α}
    (h : StoreOps mk t) : t.Ordered := by
  induction h with
  | empty => trivial
  | @create t2 k hs ih =>
    rw [find_droph_create]
    cases hf : t2.findKey k with
    | some v => exact ih
    | none =>
      cases hi : insert_droph t2 k (mk k) with
      | ok t3 => exact insert_ok_ordered t2 t3 k (mk k) ih hi
      | error e => exact ih
  | @ins t2 t3 k v hs hi ih => exact insert_ok_ordered t2 t3 k v ih hi
  | @erase t2 k hs ih => exact rb_erase_ordered t2 k ih

/-- **C5.** After any sequence of fetch-or-create, raw insertion, and
removal operations on an aggregation store (tree generic in the entry
payload: the location store instantiates it with `DropLoc`, the histogram
store with `DropHist`), the store never holds two entries with the same
key; inserting an existing key fails with `-EEXIST` — before any node is
linked, so the store is unchanged — and fetch-or-create on an existing key
returns the store as is, never overwriting the entry. -/
theorem store_key_uniqueness {α : Type} (mk : Nat → α) (t : RBTree α)
    (h : StoreOps mk t) :
    t.keys.Nodup ∧
    (∀ (k : Nat) (v : α), k ∈ t.keys →
      insert_droph t k v = Except.error (-EEXIST)) ∧
    (∀ (k : Nat) (v : α), k ∈ t.keys → find_droph_create t k v = t) := by
  have ho := store_ops_ordered h
  refine ⟨(ordered_pairwise t ho).imp Nat.ne_of_lt, ?_, ?_⟩
  · intro k v hm
    exact insert_error_of_mem t k v ho hm
  · intro k v hm
    have hf := findKey_isSome_of_mem t k ho hm
    rw [find_droph_create]
    cases hfk : t.findKey k with
    | some v2 => rfl
    | none => rw [hfk] at hf; cases hf

/-- Witness for `store_key_uniqueness`: a store built by two creates has
duplicate-free keys, re-inserting key 5 fails with `-EEXIST`, and
fetch-or-create of key 5 leaves the store unchanged. -/
theorem store_key_uniqueness_witness :
    (find_droph_create (find_droph_create RBTree.nil 5 5) 2 2).keys.Nodup ∧
    insert_droph (find_droph_create (find_droph_create RBTree.nil 5 5) 2 2) 5 0
      = Except.error (-EEXIST) ∧
    find_droph_create (find_droph_create (find_droph_create RBTree.nil 5 5) 2 2) 5 0
      = find_droph_create (find_droph_create RBTree.nil 5 5) 2 2 := by
  have h := store_key_uniqueness (fun k => k)
    (find_droph_create (find_droph_create RBTree.nil 5 5) 2 2)
    (StoreOps.create 2 (StoreOps.create 5 StoreOps.empty))
  exact ⟨h.1, h.2.1 5 0 (by decide), h.2.2 5 0 (by decide)⟩
